import Mathlib

set_option maxRecDepth 8000

/-!
Shallow embedding of the process-manager simulator
(`clases.py`, `planificador_fcfs.py`, `gestor_memoria.py`).

Python objects referenced from several queues are modelled by a process
table (`all_processes : List Process`) keyed by `pid`; every queue and the
CPU store pids, and in-place object mutation becomes an update of the
table entry with that pid.  Python `set`s of small naturals are modelled
as duplicate-free lists, dicts as association lists (insertion ordered,
like Python dicts).  Machine integers that the code can drive below zero
(`remaining_cpu`, semaphore `value`, ...) are `Int`; counters that only
grow are `Nat`.
-/

/-- Process states, from `clases.py` `ProcessState`. -/
inductive ProcessState
  | NEW
  | READY
  | RUNNING
  | BLOCKED
  | WAITING
  | TERMINATED
deriving DecidableEq, Repr

/-- Termination causes, from `clases.py` `TerminationCause`. -/
inductive TerminationCause
  | COMPLETED
  | FORCED
  | ERROR
  | DEADLOCK
  | TIMEOUT
deriving DecidableEq, Repr

/-- A process record, from `clases.py` `Process`.  The `pid` is assigned by
`ProcessManager.create_process` from the manager's counter. -/
structure Process where
  pid : Nat
  size_kb : Nat
  num_pages : Nat
  state : ProcessState
  priority : Nat
  pages_in_ram : List Nat
  pages_in_swap : List Nat
  page_faults : Nat
  last_access_time : List (Nat × Nat)
  cpu_burst : Nat
  remaining_cpu : Int
  arrival_time : Nat
  start_time : Option Nat
  finish_time : Option Nat
  waiting_time : Int
  turnaround_time : Int
  lifetime : Nat
  remaining_lifetime : Int
  blocked_on : Option String
  termination_cause : Option TerminationCause
deriving DecidableEq, Repr

/-- Lookup in an association list (Python dict read). -/
def assocGet {α β : Type} [DecidableEq α] (l : List (α × β)) (k : α) : Option β :=
  match l with
  | [] => none
  | (a, b) :: rest => if a = k then some b else assocGet rest k

/-- Write in an association list (Python dict assignment: replace the
binding in place, or append a fresh one, like insertion-ordered dicts). -/
def assocSet {α β : Type} [DecidableEq α] (l : List (α × β)) (k : α) (v : β) :
    List (α × β) :=
  match l with
  | [] => [(k, v)]
  | (a, b) :: rest => if a = k then (k, v) :: rest else (a, b) :: assocSet rest k v

/-- Delete from an association list (Python `del d[k]`). -/
def assocErase {α β : Type} [DecidableEq α] (l : List (α × β)) (k : α) :
    List (α × β) :=
  match l with
  | [] => []
  | (a, b) :: rest => if a = k then rest else (a, b) :: assocErase rest k

/-- Python `set.add` on a duplicate-free list. -/
def setAdd (l : List Nat) (x : Nat) : List Nat :=
  if x ∈ l then l else l ++ [x]

/-- Index of the first empty cell of a frame array (`None` cell), if any. -/
def firstNoneIdx {α : Type} : List (Option α) → Option Nat
  | [] => none
  | none :: _ => some 0
  | some _ :: rest => (firstNoneIdx rest).map (· + 1)

/-- Number of empty cells, `sum(1 for f in self.ram if f is None)`. -/
def countNone {α : Type} (l : List (Option α)) : Nat :=
  l.countP (fun c => c.isNone)

/-- Page-table entry, from `clases.py` `PageTableEntry`. -/
structure PageTableEntry where
  page_num : Nat
  frame : Option Nat
  swap_loc : Option Nat
  in_ram : Bool
  last_access : Nat
  dirty : Bool
deriving DecidableEq, Repr

/-- Fresh page-table entry (`PageTableEntry.__init__`). -/
def PageTableEntry.init (n : Nat) : PageTableEntry :=
  { page_num := n, frame := none, swap_loc := none, in_ram := false
    last_access := 0, dirty := false }

/-- Page table of one process, from `clases.py` `PageTable`. -/
structure PageTable where
  pid : Nat
  entries : List (Nat × PageTableEntry)
deriving DecidableEq, Repr

/-- `PageTable.__init__`: entries `{i: PageTableEntry(i) for i in range(num_pages)}`. -/
def PageTable.init (pid num_pages : Nat) : PageTable :=
  { pid := pid
    entries := (List.range num_pages).map (fun i => (i, PageTableEntry.init i)) }

/-- `PageTable.get`. -/
def PageTable.get (pt : PageTable) (page_num : Nat) : Option PageTableEntry :=
  assocGet pt.entries page_num

/-- `PageTable.translate`: returns `(frame, page_fault)`. -/
def PageTable.translate (pt : PageTable) (page_num : Nat) : Option Nat × Bool :=
  match pt.get page_num with
  | none => (none, true)
  | some entry => if entry.in_ram then (entry.frame, false) else (none, true)

/-- CPU resource, from `clases.py` `CPU`; `current_process` stores a pid. -/
structure CPU where
  current_process : Option Nat
  idle_time : Nat
  busy_time : Nat
  context_switches : Nat
deriving DecidableEq, Repr

/-- `CPU.is_free`. -/
def CPU.is_free (c : CPU) : Bool :=
  c.current_process.isNone

/-- Counting semaphore, from `clases.py` `Semaphore`.  The `history` list of
log strings is omitted; the wait queue stores pids. -/
structure Semaphore where
  name : String
  value : Int
  waiting_queue : List Nat
deriving DecidableEq, Repr

/-- `Semaphore.wait` (the P operation) on the semaphore's own state:
`value -= 1`; if `value < 0` the pid is appended to the wait queue and the
operation reports `false`.  The in-place mutation of the blocked process
(state `BLOCKED`, `blocked_on` set) is applied by the caller on the
process table. -/
def Semaphore.wait (s : Semaphore) (pid : Nat) : Semaphore × Bool :=
  let v := s.value - 1
  if v < 0 then
    ({ s with value := v, waiting_queue := s.waiting_queue ++ [pid] }, false)
  else
    ({ s with value := v }, true)

/-- `Semaphore.signal` (the V operation) on the semaphore's own state:
`value += 1`; the head of the wait queue, if any, is popped and returned.
The in-place mutation of the unblocked process (state `READY`,
`blocked_on` cleared) is applied by the caller on the process table. -/
def Semaphore.signal (s : Semaphore) : Semaphore × Option Nat :=
  let v := s.value + 1
  match s.waiting_queue with
  | [] => ({ s with value := v }, none)
  | q :: rest => ({ s with value := v, waiting_queue := rest }, some q)

/-- Swap area, from `clases.py` `SwapManager`. -/
structure SwapManager where
  total_frames : Nat
  frames : List (Option (Nat × Nat))
  used : Nat
  swaps_in : Nat
  swaps_out : Nat
deriving DecidableEq, Repr

/-- `SwapManager.__init__`. -/
def SwapManager.init (total_kb page_kb : Nat) : SwapManager :=
  let n := total_kb / page_kb
  { total_frames := n, frames := List.replicate n none, used := 0
    swaps_in := 0, swaps_out := 0 }

/-- `SwapManager.allocate`: first free slot, if any, gets `(pid, page_num)`. -/
def SwapManager.allocate (sm : SwapManager) (pid page_num : Nat) :
    SwapManager × Option Nat :=
  match firstNoneIdx sm.frames with
  | none => (sm, none)
  | some i =>
      ({ sm with frames := sm.frames.set i (some (pid, page_num))
                 used := sm.used + 1, swaps_in := sm.swaps_in + 1 }, some i)

/-- `SwapManager.free`. -/
def SwapManager.free (sm : SwapManager) (swap_idx : Nat) : SwapManager :=
  if swap_idx < sm.total_frames ∧ (sm.frames.getD swap_idx none).isSome then
    { sm with frames := sm.frames.set swap_idx none, used := sm.used - 1
              swaps_out := sm.swaps_out + 1 }
  else sm

/-- Clear every slot of one pid, counting the cleared slots
(the loop body of `SwapManager.free_process`). -/
def freeProcFrames (pid : Nat) :
    List (Option (Nat × Nat)) → List (Option (Nat × Nat)) × Nat
  | [] => ([], 0)
  | none :: rest =>
      let (r, c) := freeProcFrames pid rest
      (none :: r, c)
  | some (q, pg) :: rest =>
      let (r, c) := freeProcFrames pid rest
      if q = pid then (none :: r, c + 1) else (some (q, pg) :: r, c)

/-- `SwapManager.free_process`. -/
def SwapManager.free_process (sm : SwapManager) (pid : Nat) : SwapManager :=
  let (fr, c) := freeProcFrames pid sm.frames
  { sm with frames := fr, used := sm.used - c }

/-- `SwapManager.is_full`. -/
def SwapManager.is_full (sm : SwapManager) : Bool :=
  sm.used ≥ sm.total_frames

/-- System counters, from `clases.py` `Statistics` (the floating-point
average metrics are not part of the core state). -/
structure Statistics where
  total_processes : Nat
  completed_processes : Nat
  rejected_processes : Nat
  forced_terminations : Nat
  total_page_faults : Nat
  memory_accesses : Nat
  total_swaps : Nat
  deadlocks_detected : Nat
  total_blocks : Nat
deriving DecidableEq, Repr

/-- Zero statistics (`Statistics.__init__`). -/
def Statistics.init : Statistics :=
  { total_processes := 0, completed_processes := 0, rejected_processes := 0
    forced_terminations := 0, total_page_faults := 0, memory_accesses := 0
    total_swaps := 0, deadlocks_detected := 0, total_blocks := 0 }

/-- Whole simulator state, from `gestor_memoria.py` `ProcessManager`.
The FCFS scheduler of `planificador_fcfs.py` is its `ready_queue`; the
process-wide `Process._counter` becomes the field `pid_counter`. -/
structure ProcessManager where
  ram_kb : Nat
  swap_kb : Nat
  page_kb : Nat
  total_frames : Nat
  ram : List (Option Nat)
  frame_map : List (Option (Nat × Nat))
  swap : SwapManager
  cpu : CPU
  ready_queue : List Nat
  all_processes : List Process
  active_processes : List Nat
  blocked_processes : List Nat
  waiting_queue : List Nat
  page_tables : List (Nat × PageTable)
  semaphores : List (String × Semaphore)
  current_time : Nat
  stats : Statistics
  pid_counter : Nat
deriving DecidableEq, Repr

/-- `ProcessManager.__init__` for a given memory configuration. -/
def ProcessManager.init (ram_kb swap_kb page_kb : Nat) : ProcessManager :=
  let tf := ram_kb / page_kb
  { ram_kb := ram_kb, swap_kb := swap_kb, page_kb := page_kb
    total_frames := tf
    ram := List.replicate tf none
    frame_map := List.replicate tf none
    swap := SwapManager.init swap_kb page_kb
    cpu := { current_process := none, idle_time := 0, busy_time := 0, context_switches := 0 }
    ready_queue := []
    all_processes := [], active_processes := [], blocked_processes := []
    waiting_queue := [], page_tables := [], semaphores := []
    current_time := 0, stats := Statistics.init, pid_counter := 0 }

/-- Update the (unique) table entry with a given pid. -/
def updP (pid : Nat) (f : Process → Process) (l : List Process) : List Process :=
  l.map (fun p => if p.pid = pid then f p else p)

/-- Find the process record with a given pid. -/
def findP (pid : Nat) (l : List Process) : Option Process :=
  l.find? (fun p => p.pid = pid)

/-- Lookup of a process object by pid. -/
def ProcessManager.findProc (k : ProcessManager) (pid : Nat) : Option Process :=
  findP pid k.all_processes

/-- In-place mutation of the process object with a given pid. -/
def ProcessManager.setProc (k : ProcessManager) (pid : Nat) (f : Process → Process) :
    ProcessManager :=
  { k with all_processes := updP pid f k.all_processes }

/-- In-place mutation of one page-table entry
(`entry = self.page_tables[pid].get(page_num); entry.x = ...`). -/
def ProcessManager.updateEntry (k : ProcessManager) (pid page_num : Nat)
    (f : PageTableEntry → PageTableEntry) : ProcessManager :=
  match assocGet k.page_tables pid with
  | none => k
  | some pt =>
      match pt.get page_num with
      | none => k
      | some e =>
          { k with page_tables :=
              (assocSet k.page_tables pid
                { pt with entries := assocSet pt.entries page_num (f e) }) }

/-- `FCFSScheduler.add_process`: append iff the state is READY or NEW,
normalising it to READY. -/
def ProcessManager.add_process (k : ProcessManager) (pid : Nat) : ProcessManager :=
  match k.findProc pid with
  | none => k
  | some p =>
      if p.state = ProcessState.READY ∨ p.state = ProcessState.NEW then
        { (k.setProc pid (fun q => { q with state := ProcessState.READY })) with
            ready_queue := k.ready_queue ++ [pid] }
      else k

/-- `CPU.release`: the dispatched process, if any, goes back to READY and
the CPU becomes free. -/
def ProcessManager.cpu_release (k : ProcessManager) : ProcessManager :=
  match k.cpu.current_process with
  | none => k
  | some q =>
      { (k.setProc q (fun p => { p with state := ProcessState.READY })) with
          cpu := { k.cpu with current_process := none } }

/-- `CPU.assign`: count a context switch if the CPU was occupied, dispatch
the process, set it RUNNING, and initialise `start_time` to `0` when unset
(this constant 0 is exactly what the source assigns). -/
def ProcessManager.cpu_assign (k : ProcessManager) (pid : Nat) : ProcessManager :=
  let k1 :=
    if k.cpu.current_process.isSome then
      { k with cpu := { k.cpu with context_switches := k.cpu.context_switches + 1 } }
    else k
  let k2 := { k1 with cpu := { k1.cpu with current_process := some pid } }
  k2.setProc pid (fun p =>
    { p with state := ProcessState.RUNNING
             start_time := if p.start_time = none then some 0 else p.start_time })

/-- `CPU.execute_cycle`: burn one cycle on the dispatched process, if any. -/
def ProcessManager.execute_cycle (k : ProcessManager) : ProcessManager × Bool :=
  match k.cpu.current_process with
  | some q =>
      ({ (k.setProc q (fun p => { p with remaining_cpu := p.remaining_cpu - 1 })) with
           cpu := { k.cpu with busy_time := k.cpu.busy_time + 1 } }, true)
  | none =>
      ({ k with cpu := { k.cpu with idle_time := k.cpu.idle_time + 1 } }, false)

/-- `ProcessManager.create_process`: fresh pid, `cpu_burst or lifetime`
(Python `or`, so a burst of 0 also falls back to the lifetime), arrival at
the current clock, and the total-processes counter. -/
def ProcessManager.create_process (k : ProcessManager)
    (size_kb lifetime priority : Nat) (cpu_burst : Option Nat) :
    ProcessManager × Nat :=
  let pid := k.pid_counter + 1
  let burst := match cpu_burst with
    | some b => if b = 0 then lifetime else b
    | none => lifetime
  let p : Process :=
    { pid := pid, size_kb := size_kb, num_pages := 0, state := ProcessState.NEW
      priority := priority, pages_in_ram := [], pages_in_swap := []
      page_faults := 0, last_access_time := [], cpu_burst := burst
      remaining_cpu := burst, arrival_time := k.current_time
      start_time := none, finish_time := none, waiting_time := 0
      turnaround_time := 0, lifetime := lifetime, remaining_lifetime := lifetime
      blocked_on := none, termination_cause := none }
  ({ k with pid_counter := pid
            all_processes := k.all_processes ++ [p]
            stats := { k.stats with total_processes := k.stats.total_processes + 1 } },
   pid)

/-- `ProcessManager._get_free_frame`. -/
def ProcessManager.get_free_frame (k : ProcessManager) : Option Nat :=
  firstNoneIdx k.ram

/-- Inner comparison of `_lru_select_victim`: keep the pair whose access
time is strictly below the best so far. -/
def lruScanPage (pid : Nat) (p : Process) (acc : Nat × Option (Nat × Nat))
    (page : Nat) : Nat × Option (Nat × Nat) :=
  let t := (assocGet p.last_access_time page).getD 0
  if t < acc.1 then (t, some (pid, page)) else acc

/-- Per-process scan of `_lru_select_victim` over its resident pages. -/
def ProcessManager.lruScanProc (k : ProcessManager)
    (acc : Nat × Option (Nat × Nat)) (pid : Nat) : Nat × Option (Nat × Nat) :=
  match k.findProc pid with
  | none => acc
  | some p => p.pages_in_ram.foldl (lruScanPage pid p) acc

/-- `ProcessManager._lru_select_victim`: scan the **active** list in order
and inside each process its resident pages, keeping the first pair whose
access time is strictly below the best so far (initially `current_time + 1`). -/
def ProcessManager.lru_select_victim (k : ProcessManager) : Option (Nat × Nat) :=
  (k.active_processes.foldl k.lruScanProc (k.current_time + 1, none)).2

/-- `ProcessManager._swap_out`: move one resident page to swap. -/
def ProcessManager.swap_out (k : ProcessManager) (pid page_num : Nat) :
    ProcessManager :=
  match assocGet k.page_tables pid with
  | none => k
  | some pt =>
      match pt.get page_num with
      | none => k
      | some entry =>
          if entry.in_ram then
            let (sm, swap_loc) := k.swap.allocate pid page_num
            let k1 := { k with swap := sm }
            match swap_loc with
            | none => k1
            | some s =>
                let k2 := k1.updateEntry pid page_num (fun e =>
                  { e with frame := none, swap_loc := some s, in_ram := false })
                let k3 := match entry.frame with
                  | some f =>
                      { k2 with ram := k2.ram.set f none
                                frame_map := k2.frame_map.set f none }
                  | none => k2
                let k4 := k3.setProc pid (fun q =>
                  { q with pages_in_ram := q.pages_in_ram.erase page_num
                           pages_in_swap := setAdd q.pages_in_swap page_num })
                { k4 with stats :=
                    { k4.stats with total_swaps := k4.stats.total_swaps + 1 } }
          else k

/-- `ProcessManager._swap_in`: bring one swapped page back to RAM, evicting
a victim first when no frame is free. -/
def ProcessManager.swap_in (k : ProcessManager) (pid page_num : Nat) :
    ProcessManager × Bool :=
  match assocGet k.page_tables pid with
  | none => (k, false)
  | some pt =>
      match pt.get page_num with
      | none => (k, false)
      | some entry =>
          match entry.swap_loc with
          | none => (k, false)
          | some s =>
              let (k1, frame) :=
                match firstNoneIdx k.ram with
                | some f => (k, some f)
                | none =>
                    match k.lru_select_victim with
                    | some (vp, vpage) =>
                        let k1 := k.swap_out vp vpage
                        (k1, firstNoneIdx k1.ram)
                    | none => (k, none)
              match frame with
              | none => (k1, false)
              | some f =>
                  let k2 := { k1 with
                    ram := k1.ram.set f (some pid)
                    frame_map := k1.frame_map.set f (some (pid, page_num)) }
                  let k3 := k2.updateEntry pid page_num (fun e =>
                    { e with frame := some f, swap_loc := none, in_ram := true
                             last_access := k2.current_time })
                  let k4 := { k3 with swap := k3.swap.free s }
                  let k5 := k4.setProc pid (fun q =>
                    { q with pages_in_swap := q.pages_in_swap.erase page_num
                             pages_in_ram := setAdd q.pages_in_ram page_num
                             last_access_time :=
                               assocSet q.last_access_time page_num k4.current_time })
                  (k5, true)

/-- `ProcessManager._assign_to_ram`: give every page of the process the
lowest free frame, stamping entries and residency sets. -/
def ProcessManager.assign_to_ram (k : ProcessManager) (pid : Nat) : ProcessManager :=
  match k.findProc pid with
  | none => k
  | some p =>
      (List.range p.num_pages).foldl (fun k page_num =>
        match firstNoneIdx k.ram with
        | none => k
        | some frame =>
            let k1 := { k with
              ram := k.ram.set frame (some pid)
              frame_map := k.frame_map.set frame (some (pid, page_num)) }
            let k2 := k1.updateEntry pid page_num (fun e =>
              { e with frame := some frame, in_ram := true
                       last_access := k1.current_time })
            k2.setProc pid (fun q =>
              { q with pages_in_ram := setAdd q.pages_in_ram page_num
                       last_access_time :=
                         assocSet q.last_access_time page_num k2.current_time })) k

/-- `ProcessManager._allocate_with_swap`: if swap cannot absorb the deficit
the process is parked in the manager's waiting queue (state `WAITING`) and
the call fails; otherwise evict LRU victims and install the process. -/
def ProcessManager.allocate_with_swap (k : ProcessManager) (pid : Nat) :
    ProcessManager × Bool :=
  match k.findProc pid with
  | none => (k, false)
  | some p =>
      let free_frames := countNone k.ram
      let pages_needed : Int := (p.num_pages : Int) - (free_frames : Int)
      if (k.swap.used : Int) + pages_needed > (k.swap.total_frames : Int) then
        let k1 := { k with waiting_queue := k.waiting_queue ++ [pid] }
        (k1.setProc pid (fun q => { q with state := ProcessState.WAITING }), false)
      else
        let k1 := (List.range pages_needed.toNat).foldl (fun k _ =>
          match k.lru_select_victim with
          | some (vp, vpage) => k.swap_out vp vpage
          | none => k) k
        let k2 := k1.assign_to_ram pid
        let k3 := k2.setProc pid (fun q => { q with state := ProcessState.READY })
        let k4 := { k3 with active_processes := k3.active_processes ++ [pid] }
        (k4.add_process pid, true)

/-- `ProcessManager.allocate_process`: reject oversized processes, place the
rest fully in RAM, or fall back to `allocate_with_swap`. -/
def ProcessManager.allocate_process (k : ProcessManager) (pid : Nat) :
    ProcessManager × Bool :=
  match k.findProc pid with
  | none => (k, false)
  | some p =>
      let np := (p.size_kb + k.page_kb - 1) / k.page_kb
      let k1 := k.setProc pid (fun q => { q with num_pages := np })
      if p.size_kb > k.ram_kb + k.swap_kb then
        let k2 := k1.setProc pid (fun q =>
          { q with state := ProcessState.TERMINATED
                   termination_cause := some TerminationCause.ERROR })
        ({ k2 with stats :=
            { k2.stats with rejected_processes := k2.stats.rejected_processes + 1 } },
         false)
      else
        let k2 := { k1 with page_tables := assocSet k1.page_tables pid (PageTable.init pid np) }
        let free_frames := countNone k2.ram
        if free_frames ≥ np then
          let k3 := k2.assign_to_ram pid
          let k4 := k3.setProc pid (fun q => { q with state := ProcessState.READY })
          let k5 := { k4 with active_processes := k4.active_processes ++ [pid] }
          (k5.add_process pid, true)
        else
          k2.allocate_with_swap pid

/-- `ProcessManager.access_page`: translate, count the fault, swap the page
in only when it sits in swap, count the access, and refresh the
last-access stamp only for pages already present in the dict. -/
def ProcessManager.access_page (k : ProcessManager) (pid page_num : Nat) :
    ProcessManager :=
  match assocGet k.page_tables pid with
  | none => k
  | some pt =>
      match k.findProc pid with
      | none => k
      | some p =>
          let fault := (pt.translate page_num).2
          let k1 :=
            if fault then
              let ka := k.setProc pid (fun q => { q with page_faults := q.page_faults + 1 })
              let kb := { ka with stats :=
                { ka.stats with total_page_faults := ka.stats.total_page_faults + 1 } }
              if page_num ∈ p.pages_in_swap then (kb.swap_in pid page_num).1 else kb
            else k
          let k2 := { k1 with stats :=
            { k1.stats with memory_accesses := k1.stats.memory_accesses + 1 } }
          match k2.findProc pid with
          | none => k2
          | some p2 =>
              if (assocGet p2.last_access_time page_num).isSome then
                k2.setProc pid (fun q =>
                  { q with last_access_time :=
                      assocSet q.last_access_time page_num k2.current_time })
              else k2

/-- One iteration of the RAM-clearing loop of `_free_process_memory`:
look the page's entry up in the page table and clear the frame it
occupies. -/
def ProcessManager.freeRamStep (k : ProcessManager) (pid page : Nat) :
    ProcessManager :=
  match assocGet k.page_tables pid with
  | none => k
  | some pt =>
      match pt.get page with
      | none => k
      | some entry =>
          if entry.in_ram then
            match entry.frame with
            | some f =>
                { k with ram := k.ram.set f none
                         frame_map := k.frame_map.set f none }
            | none => k
          else k

/-- RAM-clearing loop of `_free_process_memory` over the listed pages. -/
def ProcessManager.freeRamPages (k : ProcessManager) (pid : Nat) (pages : List Nat) :
    ProcessManager :=
  pages.foldl (fun k page => k.freeRamStep pid page) k

/-- `ProcessManager._free_process_memory`: clear the RAM frames of the
resident pages through the page table, clear the swap slots of the pid,
and drop the page table. -/
def ProcessManager.free_process_memory (k : ProcessManager) (pid : Nat) :
    ProcessManager :=
  match k.findProc pid with
  | none => k
  | some p =>
      let k1 := k.freeRamPages pid p.pages_in_ram
      let k2 := { k1 with swap := k1.swap.free_process pid }
      { k2 with page_tables := assocErase k2.page_tables pid }

/-- `ProcessManager.force_terminate_process`: release the CPU when the
process is RUNNING, mark it TERMINATED, compute timing only when
`start_time` is truthy (so neither `None` nor `0`), free its memory, and
remove it from the active list, the blocked list and the ready queue
(the manager's waiting queue and the semaphore wait queues are not
touched). -/
def ProcessManager.force_terminate_process (k : ProcessManager) (pid : Nat)
    (cause : TerminationCause) : ProcessManager :=
  match k.findProc pid with
  | none => k
  | some p =>
      let k1 := if p.state = ProcessState.RUNNING then k.cpu_release else k
      let k2 := k1.setProc pid (fun q =>
        { q with state := ProcessState.TERMINATED
                 termination_cause := some cause
                 finish_time := some k1.current_time })
      let k3 := match p.start_time with
        | some st =>
            if st ≠ 0 then
              k2.setProc pid (fun q =>
                let ta : Int := ((q.finish_time.getD 0 : Nat) : Int) - (q.arrival_time : Int)
                { q with turnaround_time := ta
                         waiting_time := ta - ((q.cpu_burst : Int) - q.remaining_cpu) })
            else k2
        | none => k2
      let k4 := k3.free_process_memory pid
      let k5 := { k4 with active_processes := k4.active_processes.erase pid
                          blocked_processes := k4.blocked_processes.erase pid
                          ready_queue := k4.ready_queue.erase pid }
      { k5 with stats :=
          { k5.stats with forced_terminations := k5.stats.forced_terminations + 1 } }

/-- `ProcessManager.terminate_process`: pick the cause by the precedence
`remaining_cpu ≤ 0 → COMPLETED`, `remaining_lifetime ≤ 0 → TIMEOUT`, else
`ERROR`, force-terminate, then also count a completed process. -/
def ProcessManager.terminate_process (k : ProcessManager) (pid : Nat) :
    ProcessManager :=
  match k.findProc pid with
  | none => k
  | some p =>
      let cause :=
        if p.remaining_cpu ≤ 0 then TerminationCause.COMPLETED
        else if p.remaining_lifetime ≤ 0 then TerminationCause.TIMEOUT
        else TerminationCause.ERROR
      let k1 := k.force_terminate_process pid cause
      { k1 with stats :=
          { k1.stats with completed_processes := k1.stats.completed_processes + 1 } }

/-- `ProcessManager.schedule_cpu`: dispatch the FCFS head when the CPU is
free (the `start_time = current_time` fix-up only fires when `start_time`
is still unset, which `CPU.assign` has just made impossible), execute one
cycle, and terminate the running process when its burst is exhausted. -/
def ProcessManager.schedule_cpu (k : ProcessManager) : ProcessManager :=
  let k1 :=
    match k.cpu.current_process, k.ready_queue with
    | none, next :: rest =>
        let ka := { k with ready_queue := rest }
        let kb := ka.cpu_assign next
        match kb.findProc next with
        | some p =>
            if p.start_time = none then
              kb.setProc next (fun q => { q with start_time := some kb.current_time })
            else kb
        | none => kb
    | _, _ => k
  let (k2, ran) := k1.execute_cycle
  if ran then
    match k2.cpu.current_process with
    | some current =>
        match k2.findProc current with
        | some p =>
            if p.remaining_cpu ≤ 0 then
              (k2.cpu_release).terminate_process current
            else k2
        | none => k2
    | none => k2
  else k2

/-- `ProcessManager.suspend_process`. -/
def ProcessManager.suspend_process (k : ProcessManager) (pid : Nat) :
    ProcessManager :=
  match k.findProc pid with
  | none => k
  | some p =>
      let k1 := if p.state = ProcessState.RUNNING then k.cpu_release else k
      let k2 := k1.setProc pid (fun q =>
        { q with state := ProcessState.BLOCKED
                 blocked_on := some "Suspendido manualmente" })
      let k3 := { k2 with active_processes := k2.active_processes.erase pid
                          blocked_processes := k2.blocked_processes ++ [pid] }
      { k3 with ready_queue := k3.ready_queue.erase pid }

/-- `ProcessManager.resume_process`. -/
def ProcessManager.resume_process (k : ProcessManager) (pid : Nat) :
    ProcessManager :=
  match k.findProc pid with
  | none => k
  | some p =>
      if p.state = ProcessState.BLOCKED then
        let k1 := k.setProc pid (fun q =>
          { q with state := ProcessState.READY, blocked_on := none })
        let k2 := { k1 with blocked_processes := k1.blocked_processes.erase pid
                            active_processes := k1.active_processes ++ [pid] }
        k2.add_process pid
      else k

/-- `ProcessManager.create_semaphore`. -/
def ProcessManager.create_semaphore (k : ProcessManager) (name : String)
    (initial_value : Int) : ProcessManager :=
  { k with semaphores :=
      (assocSet k.semaphores name
        { name := name, value := initial_value, waiting_queue := [] }) }

/-- `ProcessManager.semaphore_wait`: on a blocking wait the process is moved
from the active list to the blocked list; the CPU-release test reads
`process.state` only after `Semaphore.wait` has already set it to BLOCKED,
so it can never see RUNNING. -/
def ProcessManager.semaphore_wait (k : ProcessManager) (pid : Nat) (sem_name : String) :
    ProcessManager × Bool :=
  match assocGet k.semaphores sem_name with
  | none => (k, false)
  | some sem =>
      match k.findProc pid with
      | none => (k, false)
      | some _ =>
          let (sem1, ok) := sem.wait pid
          let k1 := { k with semaphores := assocSet k.semaphores sem_name sem1 }
          if ok then (k1, true)
          else
            let k2 := k1.setProc pid (fun q =>
              { q with state := ProcessState.BLOCKED, blocked_on := some sem_name })
            let k3 := { k2 with
              active_processes := k2.active_processes.erase pid
              blocked_processes := k2.blocked_processes ++ [pid] }
            let k4 :=
              match k3.findProc pid with
              | some q => if q.state = ProcessState.RUNNING then k3.cpu_release else k3
              | none => k3
            ({ k4 with stats :=
                { k4.stats with total_blocks := k4.stats.total_blocks + 1 } }, false)

/-- `ProcessManager.semaphore_signal`: a popped waiter goes back to READY,
leaves the blocked list, rejoins the active list and the scheduler. -/
def ProcessManager.semaphore_signal (k : ProcessManager) (_pid : Nat) (sem_name : String) :
    ProcessManager :=
  match assocGet k.semaphores sem_name with
  | none => k
  | some sem =>
      let (sem1, unblocked) := sem.signal
      let k1 := { k with semaphores := assocSet k.semaphores sem_name sem1 }
      match unblocked with
      | none => k1
      | some q =>
          let k2 := k1.setProc q (fun r =>
            { r with state := ProcessState.READY, blocked_on := none })
          let k3 := { k2 with
            blocked_processes := k2.blocked_processes.erase q
            active_processes := k2.active_processes ++ [q] }
          k3.add_process q

/-- `ProcessManager.detect_deadlock`: the global-stall heuristic over the
raw `blocked_processes` and `active_processes` lists. -/
def ProcessManager.detect_deadlock (k : ProcessManager) :
    ProcessManager × List Nat :=
  if k.blocked_processes = [] then (k, [])
  else
    if k.blocked_processes.length ≥ k.active_processes.length ∧
        0 < k.active_processes.length then
      if k.ready_queue.length = 0 ∧ k.cpu.current_process = none then
        ({ k with stats :=
            { k.stats with deadlocks_detected := k.stats.deadlocks_detected + 1 } },
         k.blocked_processes)
      else (k, [])
    else (k, [])

/-- `ProcessManager.increment_time`: advance the clock and accrue waiting
time for every READY process of the active list. -/
def ProcessManager.increment_time (k : ProcessManager) : ProcessManager :=
  let k1 := { k with current_time := k.current_time + 1 }
  k1.active_processes.foldl (fun k pid =>
    match k.findProc pid with
    | some p =>
        if p.state = ProcessState.READY then
          k.setProc pid (fun q => { q with waiting_time := q.waiting_time + 1 })
        else k
    | none => k) k1

/-- Driver-visible operations of one `Semaphore` object, for reasoning about
arbitrary sequences of `wait`/`signal` calls. -/
inductive SemOp
  | wait (pid : Nat)
  | signal
deriving DecidableEq, Repr

/-- Apply one semaphore operation to the semaphore's own state. -/
def Semaphore.step (s : Semaphore) : SemOp → Semaphore
  | SemOp.wait pid => (s.wait pid).1
  | SemOp.signal => (s.signal).1

/-- Run a sequence of semaphore operations. -/
def Semaphore.runOps (s : Semaphore) (ops : List SemOp) : Semaphore :=
  ops.foldl Semaphore.step s

/-- Public operations of the manager, as issued by the drivers in
`main.py` between ticks. -/
inductive Op
  | create (size_kb lifetime priority : Nat) (cpu_burst : Option Nat)
  | allocate (pid : Nat)
  | suspend (pid : Nat)
  | resume (pid : Nat)
  | kill (pid : Nat) (cause : TerminationCause)
  | terminate (pid : Nat)
  | schedule
  | accessPage (pid page_num : Nat)
  | semCreate (name : String) (initial_value : Int)
  | semWait (pid : Nat) (name : String)
  | semSignal (pid : Nat) (name : String)
  | detect
  | tick
deriving DecidableEq, Repr

/-- Apply one public operation. -/
def ProcessManager.step (k : ProcessManager) : Op → ProcessManager
  | Op.create s l pr b => (k.create_process s l pr b).1
  | Op.allocate pid => (k.allocate_process pid).1
  | Op.suspend pid => k.suspend_process pid
  | Op.resume pid => k.resume_process pid
  | Op.kill pid cause => k.force_terminate_process pid cause
  | Op.terminate pid => k.terminate_process pid
  | Op.schedule => k.schedule_cpu
  | Op.accessPage pid page => k.access_page pid page
  | Op.semCreate name v => k.create_semaphore name v
  | Op.semWait pid name => (k.semaphore_wait pid name).1
  | Op.semSignal pid name => k.semaphore_signal pid name
  | Op.detect => (k.detect_deadlock).1
  | Op.tick => k.increment_time

/-- Run a sequence of public operations. -/
def ProcessManager.run (k : ProcessManager) (ops : List Op) : ProcessManager :=
  ops.foldl ProcessManager.step k

/-- A pid names a process of the table that is not TERMINATED. -/
def ProcessManager.liveB (k : ProcessManager) (pid : Nat) : Bool :=
  match k.findProc pid with
  | some p => p.state ≠ ProcessState.TERMINATED
  | none => false

/-- The dispatched process, if any, is live. -/
def ProcessManager.cpuOkB (k : ProcessManager) : Bool :=
  match k.cpu.current_process with
  | some q => k.liveB q
  | none => true

/-- Well-formedness of one driver call in a given state: lifecycle commands
target live processes (as the drivers in `main.py` guarantee, e.g. `kill`
refuses already-terminated pids), the CPU never holds a stale pid, and a
dispatch or an unblock never pops a stale pid from a queue. -/
def ProcessManager.opOk (k : ProcessManager) : Op → Bool
  | Op.create _ _ _ _ => true
  | Op.allocate pid => k.liveB pid
  | Op.suspend pid => k.liveB pid && k.cpuOkB
  | Op.resume _ => true
  | Op.kill pid _ => k.liveB pid && k.cpuOkB
  | Op.terminate pid => k.liveB pid && k.cpuOkB
  | Op.schedule =>
      k.cpuOkB &&
        (match k.cpu.current_process, k.ready_queue with
         | none, next :: _ => k.liveB next
         | _, _ => true)
  | Op.accessPage _ _ => true
  | Op.semCreate _ _ => true
  | Op.semWait pid _ => k.liveB pid
  | Op.semSignal _ name =>
      match assocGet k.semaphores name with
      | some sem =>
          match sem.waiting_queue with
          | q :: _ => k.liveB q
          | [] => true
      | none => true
  | Op.detect => true
  | Op.tick => true

/-- Well-formedness of a whole trace, checked state by state. -/
def ProcessManager.traceOk (k : ProcessManager) : List Op → Bool
  | [] => true
  | op :: ops => k.opOk op && (k.step op).traceOk ops

/-- A process record that is not TERMINATED. -/
def liveP (p : Process) : Bool :=
  p.state ≠ ProcessState.TERMINATED

/-- Number of in-flight processes: created and not yet TERMINATED. -/
def ProcessManager.liveCount (k : ProcessManager) : Nat :=
  k.all_processes.countP liveP

/-- Accounting identity of the counters actually maintained by the code:
every termination path goes through `force_terminate_process`, so the
forced counter (not the completed one) complements rejections and
in-flight processes. -/
abbrev ProcessManager.countOk (k : ProcessManager) : Prop :=
  k.stats.rejected_processes + k.stats.forced_terminations + k.liveCount =
    k.stats.total_processes

/-- The process table is keyed by distinct pids bounded by the counter. -/
abbrev ProcessManager.pidsOk (k : ProcessManager) : Prop :=
  (k.all_processes.map Process.pid).Nodup ∧
    ∀ p ∈ k.all_processes, p.pid ≤ k.pid_counter

/-- The inductive invariant for the accounting identity. -/
abbrev ProcessManager.Inv (k : ProcessManager) : Prop :=
  k.countOk ∧ k.pidsOk

/-- Shadow of the process table retaining only pid and state. -/
def ProcessManager.procSig (k : ProcessManager) : List (Nat × ProcessState) :=
  k.all_processes.map (fun p => (p.pid, p.state))

/-- Pid column of the process table. -/
def ProcessManager.mapPid (k : ProcessManager) : List Nat :=
  k.all_processes.map Process.pid

/-- Two manager states agreeing on everything the invariant `Inv` reads:
the in-flight count, the pid column, the three counters of the identity,
and the pid counter. -/
def countsOkEq (k1 k2 : ProcessManager) : Prop :=
  k2.liveCount = k1.liveCount ∧ k2.mapPid = k1.mapPid ∧
    k2.stats.rejected_processes = k1.stats.rejected_processes ∧
    k2.stats.forced_terminations = k1.stats.forced_terminations ∧
    k2.stats.total_processes = k1.stats.total_processes ∧
    k2.pid_counter = k1.pid_counter

/-- Update of the pid/state shadow induced by setting one pid's state. -/
def updS (pid : Nat) (st : ProcessState) (l : List (Nat × ProcessState)) :
    List (Nat × ProcessState) :=
  l.map (fun pr => if pr.1 = pid then (pr.1, st) else pr)

/-- State of the process with a given pid, if any. -/
def ProcessManager.stateOf (k : ProcessManager) (pid : Nat) : Option ProcessState :=
  (k.findProc pid).map Process.state

/-- Liveness of one pid/state pair of the shadow table. -/
def liveSig (pr : Nat × ProcessState) : Bool :=
  pr.2 ≠ ProcessState.TERMINATED

/-- Two manager states agreeing on everything the accounting identity
reads: the pid/state shadow of the process table, the three counters of
the identity, and the pid counter. -/
def sameCounts (k1 k2 : ProcessManager) : Prop :=
  k2.procSig = k1.procSig ∧
    k2.stats.rejected_processes = k1.stats.rejected_processes ∧
    k2.stats.forced_terminations = k1.stats.forced_terminations ∧
    k2.stats.total_processes = k1.stats.total_processes ∧
    k2.pid_counter = k1.pid_counter

/-- Check that a RAM cell holding `pid` is reachable from a page of
`pid`'s residency set through its page table (invariant 2 of the spec,
phrased as an executable test). -/
def ProcessManager.ramCovered (k : ProcessManager) (pid f : Nat) : Bool :=
  match k.findProc pid, assocGet k.page_tables pid with
  | some p, some pt =>
      p.pages_in_ram.any (fun page =>
        match pt.get page with
        | some e => e.in_ram && e.frame == some f
        | none => false)
  | _, _ => false

/-- Default concrete process record for hand-built states. -/
def mkProc (pid : Nat) (st : ProcessState) : Process :=
  { pid := pid, size_kb := 4, num_pages := 1, state := st, priority := 5
    pages_in_ram := [], pages_in_swap := [], page_faults := 0
    last_access_time := [], cpu_burst := 3, remaining_cpu := 3
    arrival_time := 0, start_time := none, finish_time := none
    waiting_time := 0, turnaround_time := 0, lifetime := 5
    remaining_lifetime := 5, blocked_on := none, termination_cause := none }

/-- Concrete run: one admitted process, dispatched, then issuing `wait` on
a zero-valued semaphore while RUNNING. -/
def scenarioSemWait : ProcessManager :=
  (((((ProcessManager.init 16 16 4).create_semaphore "s" 0).create_process 4 5 5
      (some 3)).1.allocate_process 1).1.schedule_cpu.semaphore_wait 1 "s").1

/-- Concrete run: one admitted process (still READY) blocked on a
zero-valued semaphore. -/
def scenarioBlocked : ProcessManager :=
  ((((ProcessManager.init 16 16 4).create_semaphore "s" 0).create_process 4 5 5
      (some 3)).1.allocate_process 1).1.semaphore_wait 1 "s" |>.1

/-- The record of P1 inside `scenarioBlocked`. -/
def scenarioBlockedP1 : Process :=
  { pid := 1, size_kb := 4, num_pages := 1, state := ProcessState.BLOCKED
    priority := 5, pages_in_ram := [0], pages_in_swap := []
    page_faults := 0, last_access_time := [(0, 0)], cpu_burst := 3
    remaining_cpu := 3, arrival_time := 0, start_time := none
    finish_time := none, waiting_time := 0, turnaround_time := 0
    lifetime := 5, remaining_lifetime := 5, blocked_on := some "s"
    termination_cause := none }

/-- Concrete run: two admitted processes holding one semaphore each, then
both suspended, leaving a non-empty blocked list, an empty active list, an
empty ready queue and an idle CPU. -/
def scenarioStalled : ProcessManager :=
  let k0 := (((ProcessManager.init 16 16 4).create_semaphore "r1" 1).create_semaphore "r2" 1)
  let k1 := ((k0.create_process 4 9 5 (some 5)).1.create_process 4 9 5 (some 5)).1
  let k2 := ((k1.allocate_process 1).1.allocate_process 2).1
  let k3 := ((k2.semaphore_wait 1 "r1").1.semaphore_wait 2 "r2").1
  (k3.suspend_process 1).suspend_process 2

/-- Concrete run: a one-frame, no-swap manager with the frame taken by
admitted P1 and P2 freshly created. -/
def scenarioWaitingPre : ProcessManager :=
  ((((ProcessManager.init 4 0 4).create_process 4 5 5 (some 2)).1.allocate_process
      1).1.create_process 4 5 5 (some 2)).1

/-- Concrete run: `scenarioWaitingPre` after the failing allocation that
parks P2 in the waiting queue. -/
def scenarioWaiting : ProcessManager :=
  (scenarioWaitingPre.allocate_process 2).1

/-- Concrete run: `scenarioWaiting` after the termination of P1, which
frees the only RAM frame. -/
def scenarioFreed : ProcessManager :=
  scenarioWaiting.force_terminate_process 1 TerminationCause.FORCED

/-- Concrete run: `scenarioBlocked` after P1, still queued on semaphore
`s`, is force-terminated. -/
def scenarioKilled : ProcessManager :=
  scenarioBlocked.force_terminate_process 1 TerminationCause.FORCED

/-- Concrete run: one admitted process completing its burst through
`terminate_process`. -/
def scenarioCompleted : ProcessManager :=
  (((ProcessManager.init 16 16 4).create_process 4 5 5
      (some 2)).1.allocate_process 1).1.terminate_process 1

/-- Concrete run: an admitted process first dispatched at clock 5. -/
def scenarioDispatchLate : ProcessManager :=
  (ProcessManager.run
      ((((ProcessManager.init 16 16 4).create_process 4 5 5
          (some 3)).1.allocate_process 1).1)
      [Op.tick, Op.tick, Op.tick, Op.tick, Op.tick]).schedule_cpu

/-- Hand-built state: P1 admitted with a page table whose single entry was
never loaded (neither RAM nor swap). -/
def scenarioNeverLoaded : ProcessManager :=
  { ProcessManager.init 16 16 4 with
      all_processes := [mkProc 1 ProcessState.READY]
      active_processes := [1]
      page_tables := [(1, PageTable.init 1 1)]
      stats := { Statistics.init with total_processes := 1 } }

/-- Hand-built state: BLOCKED P1 owns the least-recently-used resident
page, active P2 a younger one. -/
def scenarioLruBlocked : ProcessManager :=
  { ProcessManager.init 16 16 4 with
      all_processes :=
        [{ mkProc 1 ProcessState.BLOCKED with
             pages_in_ram := [0], last_access_time := [(0, 0)] },
         { mkProc 2 ProcessState.READY with
             pages_in_ram := [0], last_access_time := [(0, 5)] }]
      active_processes := [2]
      blocked_processes := [1]
      current_time := 10 }

/-- `scenarioNeverLoaded` after the access that faults on the
never-loaded page. -/
def scenarioAccessed : ProcessManager :=
  scenarioNeverLoaded.access_page 1 0

/-- Hand-built state: two BLOCKED processes, one active READY process not
sitting in the ready queue, idle CPU. -/
def scenarioStalledActive : ProcessManager :=
  { ProcessManager.init 16 16 4 with
      all_processes := [mkProc 1 ProcessState.BLOCKED,
        mkProc 2 ProcessState.BLOCKED, mkProc 3 ProcessState.READY]
      active_processes := [3]
      blocked_processes := [1, 2]
      stats := { Statistics.init with total_processes := 3 } }

/-- C1 (code bug): in the concrete run `scenarioSemWait`, a RUNNING process
issues a blocking `semaphore_wait`; because `Semaphore.wait` has already
set its state to BLOCKED, the manager's `process.state == RUNNING` test
never fires and the CPU is not released: afterwards the CPU still holds
pid 1, pid 1 is BLOCKED and queued on the semaphore, and the number of
RUNNING processes is 0 although the CPU is occupied — contradicting the
claimed invariant. -/
theorem c1_cpu_keeps_blocked_process :
    scenarioSemWait.cpu.current_process = some 1 ∧
      scenarioSemWait.stateOf 1 = some ProcessState.BLOCKED ∧
      (assocGet scenarioSemWait.semaphores "s").map Semaphore.waiting_queue =
        some [1] ∧
      scenarioSemWait.all_processes.countP
        (fun p => p.state = ProcessState.RUNNING) = 0 := by
  decide

/-- C8 (code bug): in the concrete run `scenarioDispatchLate` the first
dispatch happens at clock 5, yet `CPU.assign` sets `start_time` to the
constant 0, so the `start_time = current_time` fix-up in `schedule_cpu`
never fires and the process ends with `start_time = 0`, not 5. -/
theorem c8_start_time_is_zero_not_now :
    scenarioDispatchLate.current_time = 5 ∧
      (scenarioDispatchLate.findProc 1).map Process.start_time =
        some (some 0) := by
  decide

/-- C2 (counterexample): force-terminating P1 while it is queued on
semaphore `s` leaves the TERMINATED pid in the semaphore's wait queue, so
the process is not absent from every queue. -/
theorem c2_counterexample_sem_queue_not_purged :
    scenarioKilled.stateOf 1 = some ProcessState.TERMINATED ∧
      (assocGet scenarioKilled.semaphores "s").map Semaphore.waiting_queue =
        some [1] := by
  decide

/-- C3 (counterexample): a single process completing via
`terminate_process` is counted in both `completed_processes` and
`forced_terminations`, so completed + rejected + forced + in-flight is 2
while only one process was ever created. -/
theorem c3_counterexample_double_count :
    scenarioCompleted.stats.completed_processes +
        scenarioCompleted.stats.rejected_processes +
        scenarioCompleted.stats.forced_terminations +
        scenarioCompleted.liveCount = 2 ∧
      scenarioCompleted.stats.total_processes = 1 := by
  decide

/-- C4 (counterexample): in `scenarioStalled` the blocked list is
non-empty, it is at least as large as the (empty) active list, the ready
queue is empty and the CPU is idle, yet `detect_deadlock` returns the
empty list and leaves `deadlocks_detected` at 0, because the code
additionally requires `len(active_processes) > 0`. -/
theorem c4_counterexample_all_blocked_not_detected :
    scenarioStalled.blocked_processes = [1, 2] ∧
      scenarioStalled.active_processes = [] ∧
      scenarioStalled.ready_queue = [] ∧
      scenarioStalled.cpu.current_process = none ∧
      scenarioStalled.detect_deadlock.2 = [] ∧
      scenarioStalled.detect_deadlock.1.stats.deadlocks_detected = 0 := by
  decide

/-- C5 (counterexample): accessing a page that was never loaded (entry
neither in RAM nor in swap) counts the fault and the access but does not
install the page: the entry still has `in_ram = false` and no frame, and
the RAM array is unchanged. -/
theorem c5_counterexample_never_loaded_not_installed :
    ((assocGet scenarioNeverLoaded.page_tables 1).map
        (fun pt => (pt.get 0).map (fun e => (e.in_ram, e.swap_loc)))) =
      some (some (false, none)) ∧
      scenarioAccessed.stats.total_page_faults = 1 ∧
      scenarioAccessed.stats.memory_accesses = 1 ∧
      ((assocGet scenarioAccessed.page_tables 1).map
        (fun pt => (pt.get 0).map (fun e => (e.in_ram, e.frame)))) =
        some (some (false, none)) ∧
      scenarioAccessed.ram = scenarioNeverLoaded.ram := by
  decide

/-- C6 (counterexample): `lru_select_victim` scans only the active list,
so the strictly older resident page (access time 0) of the BLOCKED — and
non-TERMINATED — process P1 is skipped and the younger page (access time
5) of active P2 is returned instead of the global minimum. -/
theorem c6_counterexample_blocked_page_skipped :
    scenarioLruBlocked.lru_select_victim = some (2, 0) ∧
      scenarioLruBlocked.stateOf 1 = some ProcessState.BLOCKED ∧
      (scenarioLruBlocked.findProc 1).map Process.pages_in_ram = some [0] ∧
      ((scenarioLruBlocked.findProc 1).map
        (fun p => (assocGet p.last_access_time 0).getD 0)) = some 0 ∧
      ((scenarioLruBlocked.findProc 2).map
        (fun p => (assocGet p.last_access_time 0).getD 0)) = some 5 := by
  decide

/-- C7 (counterexample): the failing allocation that parks P2 in the
waiting queue returns false but leaves a freshly installed page table for
pid 2, so the page-table map is not unchanged. -/
theorem c7_counterexample_page_table_installed :
    (scenarioWaitingPre.allocate_process 2).2 = false ∧
      assocGet scenarioWaitingPre.page_tables 2 = none ∧
      (assocGet scenarioWaiting.page_tables 2).isSome = true ∧
      scenarioWaiting.waiting_queue = [2] := by
  decide

/-- C9 (counterexample): terminating P1 frees the only RAM frame, but the
WAITING process P2 is not retried: it stays in the waiting queue with
state WAITING and never reaches the ready queue. -/
theorem c9_counterexample_no_retry_on_release :
    scenarioFreed.ram = [none] ∧
      scenarioFreed.waiting_queue = [2] ∧
      scenarioFreed.stateOf 2 = some ProcessState.WAITING ∧
      scenarioFreed.ready_queue = [] := by
  decide

/-- One wait or signal step preserves the queue-length/value relation of a
semaphore. -/
theorem Semaphore.step_len (s : Semaphore) (op : SemOp)
    (h : (s.waiting_queue.length : Int) = max 0 (-s.value)) :
    (((s.step op).waiting_queue.length : Int) = max 0 (-(s.step op).value)) := by
  cases op with
  | wait pid =>
      simp only [Semaphore.step, Semaphore.wait]
      split
      · simp only [List.length_append, List.length_cons, List.length_nil]
        push_cast
        omega
      · show ((s.waiting_queue.length : Int) = max 0 (-(s.value - 1)))
        omega
  | signal =>
      simp only [Semaphore.step, Semaphore.signal]
      cases hq : s.waiting_queue with
      | nil =>
          simp only [hq, List.length_nil] at h ⊢
          omega
      | cons q rest =>
          simp only [hq, List.length_cons] at h ⊢
          push_cast at h ⊢
          omega

/-- C10: for a semaphore created with value `v ≥ 0` and an empty queue,
after any sequence of `wait`/`signal` operations the wait-queue length
equals `max 0 (−value)`; in particular a non-negative value forces an
empty wait queue. -/
theorem c10_wait_queue_length_invariant (name : String) (v : Int)
    (ops : List SemOp) (hv : 0 ≤ v) :
    ((Semaphore.runOps ⟨name, v, []⟩ ops).waiting_queue.length : Int) =
        max 0 (-(Semaphore.runOps ⟨name, v, []⟩ ops).value) ∧
      (0 ≤ (Semaphore.runOps ⟨name, v, []⟩ ops).value →
        (Semaphore.runOps ⟨name, v, []⟩ ops).waiting_queue = []) := by
  have main : ∀ (l : List SemOp) (s : Semaphore),
      (s.waiting_queue.length : Int) = max 0 (-s.value) →
      ((Semaphore.runOps s l).waiting_queue.length : Int) =
        max 0 (-(Semaphore.runOps s l).value) := by
    intro l
    induction l with
    | nil => intro s h; exact h
    | cons op rest ih =>
        intro s h
        exact ih (s.step op) (Semaphore.step_len s op h)
  have h0 : ((([] : List Nat).length : Int) = max 0 (-v)) := by
    simp only [List.length_nil, Nat.cast_zero]
    omega
  have h1 := main ops ⟨name, v, []⟩ h0
  refine ⟨h1, fun hpos => ?_⟩
  have hz : ((Semaphore.runOps ⟨name, v, []⟩ ops).waiting_queue.length : Int) = 0 := by
    omega
  have hz2 : (Semaphore.runOps ⟨name, v, []⟩ ops).waiting_queue.length = 0 := by
    exact_mod_cast hz
  exact List.length_eq_zero.mp hz2

/-- Witness for C10 at a concrete semaphore and operation sequence. -/
theorem c10_witness :
    (0 ≤ (1 : Int)) ∧
      (((Semaphore.runOps ⟨"s", 1, []⟩
            [SemOp.wait 1, SemOp.wait 2, SemOp.signal]).waiting_queue.length : Int) =
          max 0 (-(Semaphore.runOps ⟨"s", 1, []⟩
            [SemOp.wait 1, SemOp.wait 2, SemOp.signal]).value) ∧
        (0 ≤ (Semaphore.runOps ⟨"s", 1, []⟩
            [SemOp.wait 1, SemOp.wait 2, SemOp.signal]).value →
          (Semaphore.runOps ⟨"s", 1, []⟩
            [SemOp.wait 1, SemOp.wait 2, SemOp.signal]).waiting_queue = [])) :=
  ⟨by decide, c10_wait_queue_length_invariant "s" 1
      [SemOp.wait 1, SemOp.wait 2, SemOp.signal] (by decide)⟩


/-- Updating one pid leaves the pid column of the table unchanged. -/
theorem updP_pid_map (pid : Nat) (f : Process → Process)
    (hf : ∀ p, (f p).pid = p.pid) (l : List Process) :
    (updP pid f l).map Process.pid = l.map Process.pid := by
  induction l with
  | nil => rfl
  | cons a rest ih =>
      simp only [updP, List.map_cons] at ih ⊢
      by_cases h : a.pid = pid
      · simp [h, hf a, ih]
      · simp [h, ih]

/-- Updating an absent pid is the identity. -/
theorem updP_id (pid : Nat) (f : Process → Process) (l : List Process)
    (h : ∀ x ∈ l, x.pid ≠ pid) : updP pid f l = l := by
  induction l with
  | nil => rfl
  | cons a rest ih =>
      simp only [updP, List.map_cons]
      rw [if_neg (h a (by simp))]
      have := ih (fun x hx => h x (by simp [hx]))
      simp only [updP] at this
      rw [this]

/-- Lookup of a different pid is unaffected by an update. -/
theorem findP_updP_ne (pid q : Nat) (f : Process → Process)
    (hf : ∀ p, (f p).pid = p.pid) (l : List Process) (hne : q ≠ pid) :
    findP q (updP pid f l) = findP q l := by
  induction l with
  | nil => rfl
  | cons a rest ih =>
      simp only [updP, List.map_cons] at ih ⊢
      by_cases h : a.pid = pid
      · rw [if_pos h]
        have h1 : ¬((f a).pid = q) := by
          rw [hf a, h]
          exact fun hq => hne hq.symm
        have h2 : ¬(a.pid = q) := by
          rw [h]
          exact fun hq => hne hq.symm
        simp only [findP, List.find?_cons, decide_eq_false h1, decide_eq_false h2]
          at ih ⊢
        exact ih
      · rw [if_neg h]
        by_cases hq : a.pid = q
        · simp only [findP, List.find?_cons, decide_eq_true hq]
        · simp only [findP, List.find?_cons, decide_eq_false hq] at ih ⊢
          exact ih

/-- Lookup of the updated pid returns the transformed record. -/
theorem findP_updP_self (pid : Nat) (f : Process → Process)
    (hf : ∀ p, (f p).pid = p.pid) (l : List Process) :
    findP pid (updP pid f l) = (findP pid l).map f := by
  induction l with
  | nil => rfl
  | cons a rest ih =>
      simp only [updP, List.map_cons] at ih ⊢
      by_cases h : a.pid = pid
      · rw [if_pos h]
        have h1 : (f a).pid = pid := by rw [hf a, h]
        simp only [findP, List.find?_cons, decide_eq_true h1, decide_eq_true h]
        rfl
      · rw [if_neg h]
        simp only [findP, List.find?_cons, decide_eq_false h] at ih ⊢
        exact ih

/-- A liveness-preserving update keeps the in-flight count. -/
theorem countP_updP_congr (pid : Nat) (f : Process → Process)
    (hl : ∀ p, liveP (f p) = liveP p) (l : List Process) :
    (updP pid f l).countP liveP = l.countP liveP := by
  induction l with
  | nil => rfl
  | cons a rest ih =>
      simp only [updP, List.map_cons, List.countP_cons] at ih ⊢
      by_cases h : a.pid = pid
      · simp [h, hl a, ih]
      · simp [h, ih]

/-- With distinct pids, updating the found record changes the in-flight
count exactly by the liveness delta of that record. -/
theorem countP_updP_found (pid : Nat) (f : Process → Process)
    (l : List Process)
    (hnd : (l.map Process.pid).Nodup) (p₀ : Process)
    (hfind : findP pid l = some p₀) :
    (updP pid f l).countP liveP + (if liveP p₀ then 1 else 0) =
      l.countP liveP + (if liveP (f p₀) then 1 else 0) := by
  induction l with
  | nil => simp [findP] at hfind
  | cons a rest ih =>
      simp only [List.map_cons, List.nodup_cons] at hnd
      by_cases h : a.pid = pid
      · have ha : p₀ = a := by
          simp only [findP, List.find?_cons, decide_eq_true h] at hfind
          exact (Option.some_inj.mp hfind).symm
        subst ha
        have hrest : updP pid f rest = rest := by
          refine updP_id pid f rest (fun x hx hxe => ?_)
          refine hnd.1 ?_
          rw [h, ← hxe]
          exact List.mem_map_of_mem Process.pid hx
        simp only [updP, List.map_cons, if_pos h]
        have hrest2 : rest.map (fun p => if p.pid = pid then f p else p) = rest := by
          simpa only [updP] using hrest
        rw [hrest2]
        simp only [List.countP_cons]
        cases hl1 : liveP p₀ <;> cases hl2 : liveP (f p₀) <;> simp
      · have hfind2 : findP pid rest = some p₀ := by
          simp only [findP, List.find?_cons, decide_eq_false h] at hfind
          exact hfind
        have := ih hnd.2 hfind2
        simp only [updP, List.map_cons, if_neg h, List.countP_cons] at this ⊢
        omega

/-- One RAM-clearing iteration only rewrites the RAM and frame-map
arrays. -/
theorem freeRamStep_shape (k : ProcessManager) (pid page : Nat) :
    ∃ r fm, k.freeRamStep pid page = { k with ram := r, frame_map := fm } := by
  unfold ProcessManager.freeRamStep
  split
  · exact ⟨k.ram, k.frame_map, rfl⟩
  · split
    · exact ⟨k.ram, k.frame_map, rfl⟩
    · split
      · split
        · exact ⟨_, _, rfl⟩
        · exact ⟨k.ram, k.frame_map, rfl⟩
      · exact ⟨k.ram, k.frame_map, rfl⟩

/-- The RAM-clearing loop only rewrites the RAM and frame-map arrays. -/
theorem freeRamPages_shape (pid : Nat) (pages : List Nat) :
    ∀ k : ProcessManager, ∃ r fm,
      k.freeRamPages pid pages = { k with ram := r, frame_map := fm } := by
  induction pages with
  | nil =>
      intro k
      exact ⟨k.ram, k.frame_map, rfl⟩
  | cons page rest ih =>
      intro k
      have hstep : k.freeRamPages pid (page :: rest) =
          (k.freeRamStep pid page).freeRamPages pid rest := by
        simp only [ProcessManager.freeRamPages, List.foldl_cons]
      rcases freeRamStep_shape k pid page with ⟨r0, fm0, hs⟩
      rcases ih (k.freeRamStep pid page) with ⟨r, fm, hr⟩
      refine ⟨r, fm, ?_⟩
      rw [hstep, hr, hs]

/-- C4 (amended): `detect_deadlock` declares a deadlock exactly under the
code's guard, which besides a non-empty blocked list, an empty ready
queue and an idle CPU also requires a **non-empty active list** whose
length the blocked list matches; under those hypotheses it returns the
blocked list and increments the counter. -/
theorem c4_amended_detect_deadlock (k : ProcessManager)
    (hb : k.blocked_processes ≠ [])
    (hge : k.active_processes.length ≤ k.blocked_processes.length)
    (hpos : 0 < k.active_processes.length)
    (hready : k.ready_queue = [])
    (hcpu : k.cpu.current_process = none) :
    k.detect_deadlock.2 = k.blocked_processes ∧
      k.detect_deadlock.1.stats.deadlocks_detected =
        k.stats.deadlocks_detected + 1 := by
  unfold ProcessManager.detect_deadlock
  rw [if_neg hb, if_pos ⟨hge, hpos⟩, if_pos ⟨by rw [hready]; rfl, hcpu⟩]
  exact ⟨rfl, rfl⟩

/-- Witness for the amended C4 at a concrete stalled state with a
non-empty active list. -/
theorem c4_amended_witness :
    (scenarioStalledActive.blocked_processes ≠ [] ∧
        scenarioStalledActive.active_processes.length ≤
          scenarioStalledActive.blocked_processes.length ∧
        0 < scenarioStalledActive.active_processes.length ∧
        scenarioStalledActive.ready_queue = [] ∧
        scenarioStalledActive.cpu.current_process = none) ∧
      scenarioStalledActive.detect_deadlock.2 =
          scenarioStalledActive.blocked_processes ∧
        scenarioStalledActive.detect_deadlock.1.stats.deadlocks_detected =
          scenarioStalledActive.stats.deadlocks_detected + 1 :=
  ⟨⟨by decide, by decide, by decide, by decide, by decide⟩,
    c4_amended_detect_deadlock scenarioStalledActive (by decide) (by decide)
      (by decide) (by decide) (by decide)⟩

/-- C7 (amended): every `allocate_process` call that returns false leaves
the RAM frame array and the whole swap store unchanged; the page-table
map, however, is only unchanged on the rejection path (the waiting path
installs a fresh table, see the counterexample). -/
theorem c7_amended_failed_allocate_ram_swap (k : ProcessManager) (pid : Nat)
    (h : (k.allocate_process pid).2 = false) :
    (k.allocate_process pid).1.ram = k.ram ∧
      (k.allocate_process pid).1.swap = k.swap := by
  unfold ProcessManager.allocate_process at h ⊢
  cases hf : k.findProc pid with
  | none => simp only [hf]; trivial
  | some p =>
      simp only [hf] at h ⊢
      split at h
      next hsz =>
        rw [if_pos hsz]
        exact ⟨rfl, rfl⟩
      next hsz =>
        rw [if_neg hsz]
        split at h
        next hfree => simp at h
        next hfree =>
          rw [if_neg hfree]
          unfold ProcessManager.allocate_with_swap at h ⊢
          split at h
          next heq =>
            simp only [heq]
            exact ⟨rfl, rfl⟩
          next p2 heq =>
            simp only [heq]
            dsimp only at h
            split at h
            next hcap =>
              rw [if_pos hcap]
              exact ⟨rfl, rfl⟩
            next hcap =>
              simp at h

/-- Witness for the amended C7 at the concrete waiting-path failure. -/
theorem c7_amended_witness :
    (scenarioWaitingPre.allocate_process 2).2 = false ∧
      (scenarioWaitingPre.allocate_process 2).1.ram = scenarioWaitingPre.ram ∧
        (scenarioWaitingPre.allocate_process 2).1.swap =
          scenarioWaitingPre.swap :=
  ⟨by decide, c7_amended_failed_allocate_ram_swap scenarioWaitingPre 2 (by decide)⟩

/-- `free_process_memory` only rewrites RAM, the frame map, the swap store
and the page-table map. -/
theorem free_process_memory_shape (k : ProcessManager) (pid : Nat) :
    ∃ r fm sw ptab, k.free_process_memory pid =
      { k with ram := r, frame_map := fm, swap := sw, page_tables := ptab } := by
  unfold ProcessManager.free_process_memory
  split
  · exact ⟨k.ram, k.frame_map, k.swap, k.page_tables, rfl⟩
  next p heq =>
    rcases freeRamPages_shape pid p.pages_in_ram k with ⟨r, fm, hr⟩
    refine ⟨r, fm, k.swap.free_process pid, assocErase k.page_tables pid, ?_⟩
    rw [hr]

/-- `free_process_memory` does not touch the waiting queue. -/
theorem free_process_memory_waiting_queue (k : ProcessManager) (pid : Nat) :
    (k.free_process_memory pid).waiting_queue = k.waiting_queue := by
  rcases free_process_memory_shape k pid with ⟨r, fm, sw, ptab, h⟩
  rw [h]

/-- `free_process_memory` does not touch the process table. -/
theorem free_process_memory_all_processes (k : ProcessManager) (pid : Nat) :
    (k.free_process_memory pid).all_processes = k.all_processes := by
  rcases free_process_memory_shape k pid with ⟨r, fm, sw, ptab, h⟩
  rw [h]

/-- `free_process_memory` does not touch the semaphore map. -/
theorem free_process_memory_semaphores (k : ProcessManager) (pid : Nat) :
    (k.free_process_memory pid).semaphores = k.semaphores := by
  rcases free_process_memory_shape k pid with ⟨r, fm, sw, ptab, h⟩
  rw [h]

/-- `cpu_release` does not touch the waiting queue. -/
theorem cpu_release_waiting_queue (k : ProcessManager) :
    k.cpu_release.waiting_queue = k.waiting_queue := by
  unfold ProcessManager.cpu_release
  split <;> rfl

/-- `cpu_release` leaves every pid other than the dispatched one alone. -/
theorem cpu_release_findProc_ne (k : ProcessManager) (q : Nat)
    (h : k.cpu.current_process ≠ some q) :
    k.cpu_release.findProc q = k.findProc q := by
  unfold ProcessManager.cpu_release
  cases hc : k.cpu.current_process with
  | none => rfl
  | some r =>
      have hr : q ≠ r := fun he => h (by rw [hc, he])
      show findP q (updP r (fun p => { p with state := ProcessState.READY })
          k.all_processes) = findP q k.all_processes
      exact findP_updP_ne r q (fun p => { p with state := ProcessState.READY })
        (fun p => rfl) k.all_processes hr

/-- `setProc` leaves every other pid's record alone. -/
theorem setProc_findProc_ne (k : ProcessManager) (pid q : Nat)
    (f : Process → Process) (hf : ∀ p, (f p).pid = p.pid) (hne : q ≠ pid) :
    (k.setProc pid f).findProc q = k.findProc q :=
  findP_updP_ne pid q f hf k.all_processes hne

/-- `setProc` does not touch the waiting queue. -/
theorem setProc_waiting_queue (k : ProcessManager) (pid : Nat)
    (f : Process → Process) :
    (k.setProc pid f).waiting_queue = k.waiting_queue := rfl

/-- `cpu_release` leaves the record of every pid not on the CPU alone. -/
theorem cpu_release_findP (k : ProcessManager) (q : Nat)
    (h : k.cpu.current_process ≠ some q) :
    findP q k.cpu_release.all_processes = findP q k.all_processes := by
  unfold ProcessManager.cpu_release
  cases hc : k.cpu.current_process with
  | none => rfl
  | some r =>
      have hr : q ≠ r := fun he => h (by rw [hc, he])
      show findP q (updP r (fun p => { p with state := ProcessState.READY })
          k.all_processes) = findP q k.all_processes
      exact findP_updP_ne r q (fun p => { p with state := ProcessState.READY })
        (fun p => rfl) k.all_processes hr

/-- `force_terminate_process` never touches the manager's waiting queue. -/
theorem force_terminate_waiting_queue (k : ProcessManager) (pid : Nat)
    (cause : TerminationCause) :
    (k.force_terminate_process pid cause).waiting_queue = k.waiting_queue := by
  unfold ProcessManager.force_terminate_process
  split
  · rfl
  next p heq =>
    dsimp only
    rw [free_process_memory_waiting_queue]
    split <;>
      simp only [apply_ite (fun kk : ProcessManager => kk.waiting_queue),
        setProc_waiting_queue, cpu_release_waiting_queue, ite_self]

/-- `force_terminate_process` leaves the record of every other pid not on
the CPU alone. -/
theorem force_terminate_findProc_ne (k : ProcessManager) (pid q : Nat)
    (cause : TerminationCause) (hne : q ≠ pid)
    (hcpu : k.cpu.current_process ≠ some q) :
    (k.force_terminate_process pid cause).findProc q = k.findProc q := by
  unfold ProcessManager.force_terminate_process
  split
  · rfl
  next p heq =>
    show findP q _ = findP q k.all_processes
    dsimp only
    rw [free_process_memory_all_processes]
    split
    next st hst =>
      split
      next h0 =>
        dsimp only [ProcessManager.setProc]
        refine Eq.trans (findP_updP_ne pid q _ ?_ _ hne)
          (Eq.trans (findP_updP_ne pid q _ ?_ _ hne) ?_)
        · intro r; rfl
        · intro r; rfl
        · split
          · exact cpu_release_findP k q hcpu
          · rfl
      next h0 =>
        dsimp only [ProcessManager.setProc]
        refine Eq.trans (findP_updP_ne pid q _ ?_ _ hne) ?_
        · intro r; rfl
        · split
          · exact cpu_release_findP k q hcpu
          · rfl
    next hst =>
      dsimp only [ProcessManager.setProc]
      refine Eq.trans (findP_updP_ne pid q _ ?_ _ hne) ?_
      · intro r; rfl
      · split
        · exact cpu_release_findP k q hcpu
        · rfl

/-- C9 (amended): no operation retries the waiting queue; in particular a
`force_terminate_process` call that releases RAM and swap capacity leaves
the waiting queue, and the state of every process waiting in it, exactly
as they were, so a WAITING process is not admitted on capacity release. -/
theorem c9_amended_no_retry_on_release (k : ProcessManager) (pid q : Nat)
    (cause : TerminationCause)
    (hq : q ∈ k.waiting_queue) (hne : q ≠ pid)
    (hcpu : k.cpu.current_process ≠ some q) :
    (k.force_terminate_process pid cause).waiting_queue = k.waiting_queue ∧
      (k.force_terminate_process pid cause).findProc q = k.findProc q ∧
      q ∈ (k.force_terminate_process pid cause).waiting_queue := by
  have hw := force_terminate_waiting_queue k pid cause
  have hp := force_terminate_findProc_ne k pid q cause hne hcpu
  exact ⟨hw, hp, by rw [hw]; exact hq⟩

/-- Witness for the amended C9 at the concrete waiting-queue state. -/
theorem c9_amended_witness :
    (2 ∈ scenarioWaiting.waiting_queue ∧ (2 : Nat) ≠ 1 ∧
        scenarioWaiting.cpu.current_process ≠ some 2) ∧
      ((scenarioWaiting.force_terminate_process 1
            TerminationCause.FORCED).waiting_queue =
          scenarioWaiting.waiting_queue ∧
        (scenarioWaiting.force_terminate_process 1
            TerminationCause.FORCED).findProc 2 = scenarioWaiting.findProc 2 ∧
        2 ∈ (scenarioWaiting.force_terminate_process 1
            TerminationCause.FORCED).waiting_queue) :=
  ⟨⟨by decide, by decide, by decide⟩,
    c9_amended_no_retry_on_release scenarioWaiting 1 2 TerminationCause.FORCED
      (by decide) (by decide) (by decide)⟩

/-- C5 (amended): for an admitted process and a page whose entry is
neither in RAM nor in swap (never loaded), `access_page` increments the
process's fault counter, the global fault counter and the access counter,
but does **not** install the page: the RAM array and the whole page-table
map are left unchanged. -/
theorem c5_amended_never_loaded_counts_only (k : ProcessManager)
    (pid page : Nat) (p : Process) (pt : PageTable) (e : PageTableEntry)
    (hpt : assocGet k.page_tables pid = some pt)
    (hp : k.findProc pid = some p)
    (he : pt.get page = some e)
    (hnr : e.in_ram = false)
    (hns : page ∉ p.pages_in_swap) :
    ((k.access_page pid page).findProc pid).map Process.page_faults =
        some (p.page_faults + 1) ∧
      (k.access_page pid page).stats.total_page_faults =
        k.stats.total_page_faults + 1 ∧
      (k.access_page pid page).stats.memory_accesses =
        k.stats.memory_accesses + 1 ∧
      (k.access_page pid page).ram = k.ram ∧
      (k.access_page pid page).page_tables = k.page_tables := by
  have hfault : (pt.translate page).2 = true := by
    unfold PageTable.translate
    rw [he]
    dsimp only
    rw [hnr]
    simp
  have hk2 : findP pid (updP pid
      (fun q => { q with page_faults := q.page_faults + 1 })
      k.all_processes) = some { p with page_faults := p.page_faults + 1 } := by
    rw [findP_updP_self pid (fun q => { q with page_faults := q.page_faults + 1 })
      (fun r => rfl) k.all_processes]
    rw [show findP pid k.all_processes = some p from hp]
    rfl
  unfold ProcessManager.access_page
  rw [hpt, hp]
  dsimp only
  rw [hfault]
  rw [if_pos rfl]
  rw [if_neg hns]
  unfold ProcessManager.findProc
  dsimp only [ProcessManager.setProc]
  rw [hk2]
  dsimp only
  by_cases hla : (assocGet p.last_access_time page).isSome = true
  · rw [if_pos hla]
    dsimp only [ProcessManager.setProc]
    refine ⟨?_, rfl, rfl, rfl, rfl⟩
    rw [findP_updP_self pid
      (fun q => { q with
        last_access_time := assocSet q.last_access_time page k.current_time })
      (fun r => rfl)]
    rw [hk2]
    rfl
  · rw [if_neg hla]
    exact ⟨by rw [hk2]; rfl, rfl, rfl, rfl, rfl⟩

/-- Witness for the amended C5 at the concrete never-loaded state. -/
theorem c5_amended_witness :
    (assocGet scenarioNeverLoaded.page_tables 1 = some (PageTable.init 1 1) ∧
        scenarioNeverLoaded.findProc 1 = some (mkProc 1 ProcessState.READY) ∧
        (PageTable.init 1 1).get 0 = some (PageTableEntry.init 0) ∧
        (PageTableEntry.init 0).in_ram = false ∧
        0 ∉ (mkProc 1 ProcessState.READY).pages_in_swap) ∧
      (((scenarioNeverLoaded.access_page 1 0).findProc 1).map
          Process.page_faults =
          some ((mkProc 1 ProcessState.READY).page_faults + 1) ∧
        (scenarioNeverLoaded.access_page 1 0).stats.total_page_faults =
          scenarioNeverLoaded.stats.total_page_faults + 1 ∧
        (scenarioNeverLoaded.access_page 1 0).stats.memory_accesses =
          scenarioNeverLoaded.stats.memory_accesses + 1 ∧
        (scenarioNeverLoaded.access_page 1 0).ram = scenarioNeverLoaded.ram ∧
        (scenarioNeverLoaded.access_page 1 0).page_tables =
          scenarioNeverLoaded.page_tables) :=
  ⟨⟨by decide, by decide, by decide, by decide, by decide⟩,
    c5_amended_never_loaded_counts_only scenarioNeverLoaded 1 0
      (mkProc 1 ProcessState.READY) (PageTable.init 1 1) (PageTableEntry.init 0)
      (by decide) (by decide) (by decide) (by decide) (by decide)⟩

/-- Scanning a process's pages either keeps the accumulator or returns one of the scanned pages with a strictly smaller time; the running minimum bounds every scanned time. -/
theorem lruScanPages_spec (pid : Nat) (p : Process) :
    ∀ (pages : List Nat) (acc : Nat × Option (Nat × Nat)),
      (pages.foldl (lruScanPage pid p) acc = acc ∨
        ∃ page ∈ pages,
          (pages.foldl (lruScanPage pid p) acc).1 =
              (assocGet p.last_access_time page).getD 0 ∧
            (pages.foldl (lruScanPage pid p) acc).2 = some (pid, page) ∧
            (pages.foldl (lruScanPage pid p) acc).1 < acc.1) ∧
      ((pages.foldl (lruScanPage pid p) acc).1 ≤ acc.1 ∧
        ∀ page ∈ pages, (pages.foldl (lruScanPage pid p) acc).1 ≤
          (assocGet p.last_access_time page).getD 0) := by
  intro pages
  induction pages with
  | nil =>
      intro acc
      exact ⟨Or.inl rfl, le_refl _, fun page hm => absurd hm (List.not_mem_nil page)⟩
  | cons pg rest ih =>
      intro acc
      rw [List.foldl_cons]
      by_cases ht : (assocGet p.last_access_time pg).getD 0 < acc.1
      · have hstep : lruScanPage pid p acc pg =
            ((assocGet p.last_access_time pg).getD 0, some (pid, pg)) := by
          unfold lruScanPage
          rw [if_pos ht]
        rw [hstep]
        rcases ih ((assocGet p.last_access_time pg).getD 0, some (pid, pg))
          with ⟨hprov, hb1, hb2⟩
        refine ⟨?_, le_trans hb1 (le_of_lt ht), ?_⟩
        · rcases hprov with heq | ⟨page2, hm2, h1, h2, h3⟩
          · refine Or.inr ⟨pg, by simp, ?_, ?_, ?_⟩
            · rw [heq]
            · rw [heq]
            · rw [heq]; exact ht
          · exact Or.inr ⟨page2, by simp [hm2], h1, h2, lt_trans h3 ht⟩
        · intro page hm
          rcases List.mem_cons.mp hm with he | hm2
          · subst he; exact hb1
          · exact hb2 page hm2
      · have hstep : lruScanPage pid p acc pg = acc := by
          unfold lruScanPage
          rw [if_neg ht]
        rw [hstep]
        rcases ih acc with ⟨hprov, hb1, hb2⟩
        refine ⟨?_, hb1, ?_⟩
        · rcases hprov with heq | ⟨page2, hm2, h1, h2, h3⟩
          · exact Or.inl heq
          · exact Or.inr ⟨page2, by simp [hm2], h1, h2, h3⟩
        · intro page hm
          rcases List.mem_cons.mp hm with he | hm2
          · subst he; exact le_trans hb1 (le_of_not_lt ht)
          · exact hb2 page hm2

/-- Scanning the active list either keeps the accumulator or returns a resident page of a found active process with a strictly smaller time; the running minimum bounds every scanned pair's time. -/
theorem lruScanProcs_spec (k : ProcessManager) :
    ∀ (pids : List Nat) (acc : Nat × Option (Nat × Nat)),
      (pids.foldl k.lruScanProc acc = acc ∨
        ∃ pid ∈ pids, ∃ p, k.findProc pid = some p ∧ ∃ page ∈ p.pages_in_ram,
          (pids.foldl k.lruScanProc acc).1 =
              (assocGet p.last_access_time page).getD 0 ∧
            (pids.foldl k.lruScanProc acc).2 = some (pid, page) ∧
            (pids.foldl k.lruScanProc acc).1 < acc.1) ∧
      ((pids.foldl k.lruScanProc acc).1 ≤ acc.1 ∧
        ∀ pid ∈ pids, ∀ p, k.findProc pid = some p →
          ∀ page ∈ p.pages_in_ram,
            (pids.foldl k.lruScanProc acc).1 ≤
              (assocGet p.last_access_time page).getD 0) := by
  intro pids
  induction pids with
  | nil =>
      intro acc
      exact ⟨Or.inl rfl, le_refl _,
        fun pid hm => absurd hm (List.not_mem_nil pid)⟩
  | cons q rest ih =>
      intro acc
      rw [List.foldl_cons]
      cases hfq : k.findProc q with
      | none =>
          have hstep : k.lruScanProc acc q = acc := by
            unfold ProcessManager.lruScanProc
            rw [hfq]
          rw [hstep]
          rcases ih acc with ⟨hprov, hb1, hb2⟩
          refine ⟨?_, hb1, ?_⟩
          · rcases hprov with heq | ⟨pid2, hm2, p2, hf2, page2, hpg2, h1, h2, h3⟩
            · exact Or.inl heq
            · exact Or.inr ⟨pid2, by simp [hm2], p2, hf2, page2, hpg2, h1, h2, h3⟩
          · intro pid hm p hf page hpg
            rcases List.mem_cons.mp hm with he | hm2
            · subst he; rw [hfq] at hf; exact absurd hf (by simp)
            · exact hb2 pid hm2 p hf page hpg
      | some p =>
          have hstep : k.lruScanProc acc q =
              p.pages_in_ram.foldl (lruScanPage q p) acc := by
            unfold ProcessManager.lruScanProc
            rw [hfq]
          rw [hstep]
          rcases lruScanPages_spec q p p.pages_in_ram acc with ⟨iprov, ib1, ib2⟩
          rcases ih (p.pages_in_ram.foldl (lruScanPage q p) acc)
            with ⟨hprov, hb1, hb2⟩
          refine ⟨?_, le_trans hb1 ib1, ?_⟩
          · rcases hprov with heq | ⟨pid2, hm2, p2, hf2, page2, hpg2, h1, h2, h3⟩
            · rcases iprov with ieq | ⟨page2, hpg2, i1, i2, i3⟩
              · exact Or.inl (by rw [heq, ieq])
              · refine Or.inr ⟨q, by simp, p, hfq, page2, hpg2, ?_, ?_, ?_⟩
                · rw [heq]; exact i1
                · rw [heq]; exact i2
                · rw [heq]; exact i3
            · exact Or.inr ⟨pid2, by simp [hm2], p2, hf2, page2, hpg2, h1, h2,
                lt_of_lt_of_le h3 ib1⟩
          · intro pid hm p2 hf page hpg
            rcases List.mem_cons.mp hm with he | hm2
            · subst he
              rw [hfq] at hf
              have hp2 : p2 = p := (Option.some_inj.mp hf).symm
              subst hp2
              exact le_trans hb1 (ib2 page hpg)
            · exact hb2 pid hm2 p2 hf page hpg

/-- C6 (amended): when `lru_select_victim` returns a pair, the victim is a
resident page of a process **of the active list** (blocked and waiting
processes are never scanned, the admitted process is not yet listed), its
last-access time is at most the clock, and it is minimal among all
(active process, resident page) pairs; ties are broken by scan order, not
by pid or page number (see the counterexample). -/
theorem c6_amended_lru_min_over_active (k : ProcessManager) (vp vpage : Nat)
    (h : k.lru_select_victim = some (vp, vpage)) :
    ∃ pv, vp ∈ k.active_processes ∧ k.findProc vp = some pv ∧
      vpage ∈ pv.pages_in_ram ∧
      (assocGet pv.last_access_time vpage).getD 0 ≤ k.current_time ∧
      ∀ pid2 p2 page2, pid2 ∈ k.active_processes →
        k.findProc pid2 = some p2 → page2 ∈ p2.pages_in_ram →
        (assocGet pv.last_access_time vpage).getD 0 ≤
          (assocGet p2.last_access_time page2).getD 0 := by
  unfold ProcessManager.lru_select_victim at h
  rcases lruScanProcs_spec k k.active_processes (k.current_time + 1, none)
    with ⟨hprov, hb1, hb2⟩
  rcases hprov with heq | ⟨pid2, hm2, p2, hf2, page2, hpg2, h1, h2, h3⟩
  · rw [heq] at h
    exact absurd h (by simp)
  · rw [h2] at h
    have hpair : (pid2, page2) = (vp, vpage) := Option.some_inj.mp h
    have hvp : pid2 = vp := congrArg Prod.fst hpair
    have hvpage : page2 = vpage := congrArg Prod.snd hpair
    subst hvp
    subst hvpage
    refine ⟨p2, hm2, hf2, hpg2, ?_, ?_⟩
    · have h3n : (k.active_processes.foldl k.lruScanProc
          (k.current_time + 1, none)).1 < k.current_time + 1 := h3
      rw [h1] at h3n
      omega
    · intro pid3 p3 page3 hm3 hf3 hpg3
      have hle := hb2 pid3 hm3 p3 hf3 page3 hpg3
      rw [h1] at hle
      exact hle

/-- Witness for the amended C6 at the concrete two-process state. -/
theorem c6_amended_witness :
    scenarioLruBlocked.lru_select_victim = some (2, 0) ∧
      (∃ pv, 2 ∈ scenarioLruBlocked.active_processes ∧
        scenarioLruBlocked.findProc 2 = some pv ∧
        0 ∈ pv.pages_in_ram ∧
        (assocGet pv.last_access_time 0).getD 0 ≤
          scenarioLruBlocked.current_time ∧
        ∀ pid2 p2 page2, pid2 ∈ scenarioLruBlocked.active_processes →
          scenarioLruBlocked.findProc pid2 = some p2 →
          page2 ∈ p2.pages_in_ram →
          (assocGet pv.last_access_time 0).getD 0 ≤
            (assocGet p2.last_access_time page2).getD 0) :=
  ⟨by decide, c6_amended_lru_min_over_active scenarioLruBlocked 2 0 (by decide)⟩

/-- Clearing a cell makes its read empty, in or out of range. -/
theorem getD_set_self_none {α : Type} (l : List (Option α)) (i : Nat) :
    (l.set i none).getD i none = none := by
  induction l generalizing i with
  | nil => rfl
  | cons a t ih =>
      cases i with
      | zero => rfl
      | succ j => exact ih j

/-- Writing one cell leaves the others' reads unchanged. -/
theorem getD_set_ne {α : Type} (l : List (Option α)) (i j : Nat)
    (x : Option α) (h : j ≠ i) :
    (l.set i x).getD j none = l.getD j none := by
  induction l generalizing i j with
  | nil => rfl
  | cons a t ih =>
      cases i with
      | zero =>
          cases j with
          | zero => exact absurd rfl h
          | succ j2 => rfl
      | succ i2 =>
          cases j with
          | zero => rfl
          | succ j2 => exact ih i2 j2 (fun he => h (by rw [he]))

/-- One RAM-clearing iteration either leaves a cell alone or empties it. -/
theorem freeRamStep_getD (k : ProcessManager) (pid page f : Nat) :
    (k.freeRamStep pid page).ram.getD f none = k.ram.getD f none ∨
      (k.freeRamStep pid page).ram.getD f none = none := by
  unfold ProcessManager.freeRamStep
  split
  · exact Or.inl rfl
  · split
    · exact Or.inl rfl
    · split
      · split
        next fr heq =>
          by_cases hf : f = fr
          · subst hf
            exact Or.inr (getD_set_self_none k.ram f)
          · exact Or.inl (getD_set_ne k.ram fr f none hf)
        · exact Or.inl rfl
      · exact Or.inl rfl

/-- The RAM-clearing loop either leaves a cell alone or empties it. -/
theorem freeRamPages_getD (pid : Nat) (pages : List Nat) :
    ∀ (k : ProcessManager) (f : Nat),
      (k.freeRamPages pid pages).ram.getD f none = k.ram.getD f none ∨
        (k.freeRamPages pid pages).ram.getD f none = none := by
  induction pages with
  | nil => intro k f; exact Or.inl rfl
  | cons pg rest ih =>
      intro k f
      have hstep : k.freeRamPages pid (pg :: rest) =
          (k.freeRamStep pid pg).freeRamPages pid rest := by
        simp only [ProcessManager.freeRamPages, List.foldl_cons]
      rw [hstep]
      rcases ih (k.freeRamStep pid pg) f with h1 | h1
      · rcases freeRamStep_getD k pid pg f with h2 | h2
        · exact Or.inl (h1.trans h2)
        · exact Or.inr (h1.trans h2)
      · exact Or.inr h1

/-- A listed page whose entry occupies a frame gets that frame emptied by
the RAM-clearing loop. -/
theorem freeRamPages_clears (pid : Nat) (pages : List Nat) :
    ∀ (k : ProcessManager) (page : Nat) (pt : PageTable) (e : PageTableEntry)
      (fr : Nat), page ∈ pages → assocGet k.page_tables pid = some pt →
      pt.get page = some e → e.in_ram = true → e.frame = some fr →
      (k.freeRamPages pid pages).ram.getD fr none = none := by
  induction pages with
  | nil =>
      intro k page pt e fr hm
      exact absurd hm (List.not_mem_nil page)
  | cons pg rest ih =>
      intro k page pt e fr hm hpt he hin hfr
      have hstep : k.freeRamPages pid (pg :: rest) =
          (k.freeRamStep pid pg).freeRamPages pid rest := by
        simp only [ProcessManager.freeRamPages, List.foldl_cons]
      rw [hstep]
      rcases List.mem_cons.mp hm with heq2 | hm2
      · subst heq2
        have hclear : (k.freeRamStep pid page).ram.getD fr none = none := by
          unfold ProcessManager.freeRamStep
          rw [hpt]
          dsimp only
          rw [he]
          dsimp only
          rw [hin, hfr]
          rw [if_pos rfl]
          exact getD_set_self_none k.ram fr
        rcases freeRamPages_getD pid rest (k.freeRamStep pid page) fr with h1 | h1
        · exact h1.trans hclear
        · exact h1
      · rcases freeRamStep_shape k pid pg with ⟨r0, fm0, hs⟩
        refine ih (k.freeRamStep pid pg) page pt e fr hm2 ?_ he hin hfr
        rw [hs]
        exact hpt

/-- After `free_process` no swap slot belongs to the freed pid. -/
theorem freeProcFrames_clears (pid : Nat) (l : List (Option (Nat × Nat))) :
    ∀ s ∈ (freeProcFrames pid l).1, ∀ pg, s ≠ some (pid, pg) := by
  induction l with
  | nil =>
      intro s hs
      exact absurd hs (List.not_mem_nil s)
  | cons c rest ih =>
      intro s hs pg
      cases c with
      | none =>
          simp only [freeProcFrames] at hs
          rcases List.mem_cons.mp hs with he | hm
          · subst he; simp
          · exact ih s hm pg
      | some qp =>
          rcases qp with ⟨q, pg0⟩
          simp only [freeProcFrames] at hs
          by_cases hq : q = pid
          · rw [if_pos hq] at hs
            rcases List.mem_cons.mp hs with he | hm
            · subst he; simp
            · exact ih s hm pg
          · rw [if_neg hq] at hs
            rcases List.mem_cons.mp hs with he | hm
            · subst he
              intro hcon
              exact hq (congrArg Prod.fst (Option.some_inj.mp hcon))
            · exact ih s hm pg

/-- Lookup of an unbound key fails. -/
theorem assocGet_eq_none_of_not_mem {α β : Type} [DecidableEq α]
    (l : List (α × β)) (a : α) (h : a ∉ l.map Prod.fst) :
    assocGet l a = none := by
  induction l with
  | nil => rfl
  | cons x t ih =>
      simp only [List.map_cons, List.mem_cons] at h
      push_neg at h
      simp only [assocGet]
      rw [if_neg (fun he => h.1 (by rw [he]))]
      exact ih h.2

/-- With distinct keys, lookup after deletion fails. -/
theorem assocGet_assocErase_self {α β : Type} [DecidableEq α]
    (l : List (α × β)) (a : α) (hnd : (l.map Prod.fst).Nodup) :
    assocGet (assocErase l a) a = none := by
  induction l with
  | nil => rfl
  | cons x t ih =>
      rcases x with ⟨x1, b⟩
      simp only [List.map_cons, List.nodup_cons] at hnd
      simp only [assocErase]
      by_cases hx : x1 = a
      · rw [if_pos hx]
        subst hx
        exact assocGet_eq_none_of_not_mem t x1 hnd.1
      · rw [if_neg hx]
        simp only [assocGet]
        rw [if_neg hx]
        exact ih hnd.2

/-- Unfolding of the executable coverage test `ramCovered`. -/
theorem ramCovered_spec (k : ProcessManager) (pid f : Nat) (p : Process)
    (hp : k.findProc pid = some p) (h : k.ramCovered pid f = true) :
    ∃ page ∈ p.pages_in_ram, ∃ pt, assocGet k.page_tables pid = some pt ∧
      ∃ e, pt.get page = some e ∧ e.in_ram = true ∧ e.frame = some f := by
  unfold ProcessManager.ramCovered at h
  rw [hp] at h
  cases hpt : assocGet k.page_tables pid with
  | none => rw [hpt] at h; exact absurd h (by simp)
  | some pt =>
      rw [hpt] at h
      dsimp only at h
      rcases List.any_eq_true.mp h with ⟨page, hm, hcond⟩
      refine ⟨page, hm, pt, rfl, ?_⟩
      cases he : pt.get page with
      | none => rw [he] at hcond; exact absurd hcond (by simp)
      | some e =>
          rw [he] at hcond
          dsimp only at hcond
          rcases (Bool.and_eq_true _ _).mp hcond with ⟨h1, h2⟩
          exact ⟨e, rfl, h1, by exact_mod_cast eq_of_beq h2⟩

/-- `free_process_memory` on a state that differs from `k` only in the
process table (same RAM, page tables and swap, the pid found with the
same residency set) empties every RAM cell of the pid covered by its page
table, every swap slot of the pid, and drops its page table. -/
theorem free_after_chain (k3 k : ProcessManager) (pid : Nat) (p3 : Process)
    (hf3 : k3.findProc pid = some p3)
    (hram3 : k3.ram = k.ram) (hpt3 : k3.page_tables = k.page_tables)
    (hsw3 : k3.swap = k.swap)
    (hcov : ∀ f, k.ram.getD f none = some pid →
      ∃ page ∈ p3.pages_in_ram, ∃ pt, assocGet k.page_tables pid = some pt ∧
        ∃ e, pt.get page = some e ∧ e.in_ram = true ∧ e.frame = some f)
    (hkeys : (k.page_tables.map Prod.fst).Nodup) :
    (∀ f, (k3.free_process_memory pid).ram.getD f none ≠ some pid) ∧
      (∀ s ∈ (k3.free_process_memory pid).swap.frames, ∀ pg,
        s ≠ some (pid, pg)) ∧
      assocGet (k3.free_process_memory pid).page_tables pid = none := by
  unfold ProcessManager.free_process_memory
  rw [hf3]
  dsimp only
  rcases freeRamPages_shape pid p3.pages_in_ram k3 with ⟨r, fm, hs⟩
  refine ⟨?_, ?_, ?_⟩
  · intro f hcon
    rcases freeRamPages_getD pid p3.pages_in_ram k3 f with h1 | h1
    · have hk : k.ram.getD f none = some pid := by
        rw [← hram3, ← h1]
        exact hcon
      rcases hcov f hk with ⟨page, hm, pt, hpt, e, he, hin, hfr⟩
      have h2 := freeRamPages_clears pid p3.pages_in_ram k3 page pt e f hm
        (by rw [hpt3]; exact hpt) he hin hfr
      rw [h2] at hcon
      exact absurd hcon (by simp)
    · rw [h1] at hcon
      exact absurd hcon (by simp)
  · rw [hs, hsw3]
    unfold SwapManager.free_process
    rcases hpp : freeProcFrames pid k.swap.frames with ⟨fr2, c2⟩
    intro s hs2 pg
    exact freeProcFrames_clears pid k.swap.frames s
      (by rw [hpp]; exact hs2) pg
  · rw [hs, hpt3]
    exact assocGet_assocErase_self k.page_tables pid hkeys

/-- `cpu_release` does not touch RAM. -/
theorem cpu_release_ram (k : ProcessManager) : k.cpu_release.ram = k.ram := by
  unfold ProcessManager.cpu_release
  split <;> rfl

/-- `cpu_release` does not touch the page tables. -/
theorem cpu_release_page_tables (k : ProcessManager) :
    k.cpu_release.page_tables = k.page_tables := by
  unfold ProcessManager.cpu_release
  split <;> rfl

/-- `cpu_release` does not touch the swap store. -/
theorem cpu_release_swap (k : ProcessManager) : k.cpu_release.swap = k.swap := by
  unfold ProcessManager.cpu_release
  split <;> rfl

/-- `cpu_release` does not touch the ready queue. -/
theorem cpu_release_ready_queue (k : ProcessManager) :
    k.cpu_release.ready_queue = k.ready_queue := by
  unfold ProcessManager.cpu_release
  split <;> rfl

/-- `cpu_release` does not touch the active list. -/
theorem cpu_release_active (k : ProcessManager) :
    k.cpu_release.active_processes = k.active_processes := by
  unfold ProcessManager.cpu_release
  split <;> rfl

/-- `cpu_release` does not touch the blocked list. -/
theorem cpu_release_blocked (k : ProcessManager) :
    k.cpu_release.blocked_processes = k.blocked_processes := by
  unfold ProcessManager.cpu_release
  split <;> rfl

/-- `cpu_release` does not touch the semaphores. -/
theorem cpu_release_semaphores (k : ProcessManager) :
    k.cpu_release.semaphores = k.semaphores := by
  unfold ProcessManager.cpu_release
  split <;> rfl

/-- `cpu_release` keeps every pid found, with the same residency set. -/
theorem cpu_release_findProc_keep (k : ProcessManager) (pid : Nat) (p : Process)
    (hf : k.findProc pid = some p) :
    ∃ p2, k.cpu_release.findProc pid = some p2 ∧
      p2.pages_in_ram = p.pages_in_ram := by
  unfold ProcessManager.cpu_release
  cases hc : k.cpu.current_process with
  | none => exact ⟨p, hf, rfl⟩
  | some r =>
      by_cases hr : pid = r
      · subst hr
        refine ⟨{ p with state := ProcessState.READY }, ?_, rfl⟩
        show findP pid (updP pid (fun q => { q with state := ProcessState.READY })
          k.all_processes) = _
        rw [findP_updP_self pid (fun q => { q with state := ProcessState.READY })
          (fun q => rfl) k.all_processes]
        rw [show findP pid k.all_processes = some p from hf]
        rfl
      · refine ⟨p, ?_, rfl⟩
        show findP pid (updP r (fun q => { q with state := ProcessState.READY })
          k.all_processes) = _
        rw [findP_updP_ne r pid (fun q => { q with state := ProcessState.READY })
          (fun q => rfl) k.all_processes hr]
        exact hf

/-- The conditional CPU release of the lifecycle commands keeps the found
pid, its residency set, RAM, page tables and swap. -/
theorem ite_release_facts (k : ProcessManager) (c : Prop) [Decidable c]
    (pid : Nat) (p : Process) (hp : k.findProc pid = some p) :
    ∃ p1, (if c then k.cpu_release else k).findProc pid = some p1 ∧
      p1.pages_in_ram = p.pages_in_ram ∧
      (if c then k.cpu_release else k).ram = k.ram ∧
      (if c then k.cpu_release else k).page_tables = k.page_tables ∧
      (if c then k.cpu_release else k).swap = k.swap := by
  split
  · obtain ⟨p1, hf1, hpg⟩ := cpu_release_findProc_keep k pid p hp
    exact ⟨p1, hf1, hpg, cpu_release_ram k, cpu_release_page_tables k,
      cpu_release_swap k⟩
  · exact ⟨p, hp, rfl, rfl, rfl, rfl⟩

/-- `free_after_chain` specialised to a conditional release followed by two
record updates of the terminated pid. -/
theorem free_after_two_sets (X k : ProcessManager) (pid : Nat)
    (f1 f2 : Process → Process)
    (hf1pid : ∀ q, (f1 q).pid = q.pid) (hf2pid : ∀ q, (f2 q).pid = q.pid)
    (hf1pg : ∀ q, (f1 q).pages_in_ram = q.pages_in_ram)
    (hf2pg : ∀ q, (f2 q).pages_in_ram = q.pages_in_ram)
    (p1 : Process) (hfX : X.findProc pid = some p1)
    (hXram : X.ram = k.ram) (hXpt : X.page_tables = k.page_tables)
    (hXsw : X.swap = k.swap)
    (hcov : ∀ f, k.ram.getD f none = some pid →
      ∃ page ∈ p1.pages_in_ram, ∃ pt, assocGet k.page_tables pid = some pt ∧
        ∃ e, pt.get page = some e ∧ e.in_ram = true ∧ e.frame = some f)
    (hkeys : (k.page_tables.map Prod.fst).Nodup) :
    (∀ f, (((X.setProc pid f1).setProc pid f2).free_process_memory
        pid).ram.getD f none ≠ some pid) ∧
      (∀ s ∈ (((X.setProc pid f1).setProc pid f2).free_process_memory
          pid).swap.frames, ∀ pg, s ≠ some (pid, pg)) ∧
      assocGet (((X.setProc pid f1).setProc pid f2).free_process_memory
        pid).page_tables pid = none := by
  refine free_after_chain ((X.setProc pid f1).setProc pid f2) k pid
    (f2 (f1 p1)) ?_ hXram hXpt hXsw ?_ hkeys
  · show findP pid (updP pid f2 (updP pid f1 X.all_processes)) = _
    rw [findP_updP_self pid f2 hf2pid]
    rw [findP_updP_self pid f1 hf1pid]
    rw [show findP pid X.all_processes = some p1 from hfX]
    rfl
  · intro f hf
    rcases hcov f hf with ⟨page, hm, pt, hpt, e, he, hin, hfr⟩
    refine ⟨page, ?_, pt, hpt, e, he, hin, hfr⟩
    rw [hf2pg, hf1pg]
    exact hm

/-- `free_after_chain` specialised to a conditional release followed by one
record update of the terminated pid. -/
theorem free_after_one_set (X k : ProcessManager) (pid : Nat)
    (f1 : Process → Process)
    (hf1pid : ∀ q, (f1 q).pid = q.pid)
    (hf1pg : ∀ q, (f1 q).pages_in_ram = q.pages_in_ram)
    (p1 : Process) (hfX : X.findProc pid = some p1)
    (hXram : X.ram = k.ram) (hXpt : X.page_tables = k.page_tables)
    (hXsw : X.swap = k.swap)
    (hcov : ∀ f, k.ram.getD f none = some pid →
      ∃ page ∈ p1.pages_in_ram, ∃ pt, assocGet k.page_tables pid = some pt ∧
        ∃ e, pt.get page = some e ∧ e.in_ram = true ∧ e.frame = some f)
    (hkeys : (k.page_tables.map Prod.fst).Nodup) :
    (∀ f, ((X.setProc pid f1).free_process_memory pid).ram.getD f none ≠
        some pid) ∧
      (∀ s ∈ ((X.setProc pid f1).free_process_memory pid).swap.frames,
        ∀ pg, s ≠ some (pid, pg)) ∧
      assocGet ((X.setProc pid f1).free_process_memory pid).page_tables pid =
        none := by
  refine free_after_chain (X.setProc pid f1) k pid (f1 p1) ?_ hXram hXpt hXsw
    ?_ hkeys
  · show findP pid (updP pid f1 X.all_processes) = _
    rw [findP_updP_self pid f1 hf1pid]
    rw [show findP pid X.all_processes = some p1 from hfX]
    rfl
  · intro f hf
    rcases hcov f hf with ⟨page, hm, pt, hpt, e, he, hin, hfr⟩
    refine ⟨page, ?_, pt, hpt, e, he, hin, hfr⟩
    rw [hf1pg]
    exact hm

/-- Memory effect of `force_terminate_process`: every RAM cell of the pid
(covered by its page table), every swap slot of the pid, and its page
table are gone. -/
theorem force_terminate_memory (k : ProcessManager) (pid : Nat)
    (cause : TerminationCause) (p : Process)
    (hp : k.findProc pid = some p)
    (hcov : ∀ f, f < k.ram.length → k.ram.getD f none = some pid →
      k.ramCovered pid f = true)
    (hkeys : (k.page_tables.map Prod.fst).Nodup) :
    (∀ f, (k.force_terminate_process pid cause).ram.getD f none ≠ some pid) ∧
      (∀ s ∈ (k.force_terminate_process pid cause).swap.frames, ∀ pg,
        s ≠ some (pid, pg)) ∧
      assocGet (k.force_terminate_process pid cause).page_tables pid = none := by
  have hcov2 : ∀ f, k.ram.getD f none = some pid →
      ∃ page ∈ p.pages_in_ram, ∃ pt, assocGet k.page_tables pid = some pt ∧
        ∃ e, pt.get page = some e ∧ e.in_ram = true ∧ e.frame = some f := by
    intro f hf
    by_cases hlt : f < k.ram.length
    · exact ramCovered_spec k pid f p hp (hcov f hlt hf)
    · rw [List.getD_eq_default] at hf
      · exact absurd hf (by simp)
      · omega
  obtain ⟨p1, hf1, hpg1, hram1, hpt1, hsw1⟩ :=
    ite_release_facts k (p.state = ProcessState.RUNNING) pid p hp
  have hcov1 : ∀ f, k.ram.getD f none = some pid →
      ∃ page ∈ p1.pages_in_ram, ∃ pt, assocGet k.page_tables pid = some pt ∧
        ∃ e, pt.get page = some e ∧ e.in_ram = true ∧ e.frame = some f := by
    intro f hf
    rcases hcov2 f hf with ⟨page, hm, rest⟩
    exact ⟨page, by rw [hpg1]; exact hm, rest⟩
  unfold ProcessManager.force_terminate_process
  rw [hp]
  dsimp only
  split
  next st hst =>
    split
    next h0 =>
      exact free_after_two_sets _ k pid _ _ (fun q => rfl) (fun q => rfl)
        (fun q => rfl) (fun q => rfl) p1 hf1 hram1 hpt1 hsw1 hcov1 hkeys
    next h0 =>
      exact free_after_one_set _ k pid _ (fun q => rfl) (fun q => rfl)
        p1 hf1 hram1 hpt1 hsw1 hcov1 hkeys
  next hst =>
    exact free_after_one_set _ k pid _ (fun q => rfl) (fun q => rfl)
      p1 hf1 hram1 hpt1 hsw1 hcov1 hkeys

/-- `setProc` does not touch the ready queue. -/
theorem setProc_ready_queue (k : ProcessManager) (pid : Nat)
    (f : Process → Process) :
    (k.setProc pid f).ready_queue = k.ready_queue := rfl

/-- `setProc` does not touch the active list. -/
theorem setProc_active (k : ProcessManager) (pid : Nat)
    (f : Process → Process) :
    (k.setProc pid f).active_processes = k.active_processes := rfl

/-- `setProc` does not touch the blocked list. -/
theorem setProc_blocked (k : ProcessManager) (pid : Nat)
    (f : Process → Process) :
    (k.setProc pid f).blocked_processes = k.blocked_processes := rfl

/-- `setProc` does not touch the semaphores. -/
theorem setProc_semaphores (k : ProcessManager) (pid : Nat)
    (f : Process → Process) :
    (k.setProc pid f).semaphores = k.semaphores := rfl

/-- `free_process_memory` does not touch the ready queue. -/
theorem free_process_memory_ready_queue (k : ProcessManager) (pid : Nat) :
    (k.free_process_memory pid).ready_queue = k.ready_queue := by
  rcases free_process_memory_shape k pid with ⟨r, fm, sw, ptab, h⟩
  rw [h]

/-- `free_process_memory` does not touch the active list. -/
theorem free_process_memory_active (k : ProcessManager) (pid : Nat) :
    (k.free_process_memory pid).active_processes = k.active_processes := by
  rcases free_process_memory_shape k pid with ⟨r, fm, sw, ptab, h⟩
  rw [h]

/-- `free_process_memory` does not touch the blocked list. -/
theorem free_process_memory_blocked (k : ProcessManager) (pid : Nat) :
    (k.free_process_memory pid).blocked_processes = k.blocked_processes := by
  rcases free_process_memory_shape k pid with ⟨r, fm, sw, ptab, h⟩
  rw [h]

/-- `force_terminate_process` erases one occurrence of the pid from the
ready queue. -/
theorem force_terminate_ready_queue (k : ProcessManager) (pid : Nat)
    (cause : TerminationCause) (p : Process) (hp : k.findProc pid = some p) :
    (k.force_terminate_process pid cause).ready_queue =
      k.ready_queue.erase pid := by
  unfold ProcessManager.force_terminate_process
  rw [hp]
  dsimp only
  rw [free_process_memory_ready_queue]
  congr 1
  split <;>
    simp only [apply_ite (fun kk : ProcessManager => kk.ready_queue),
      setProc_ready_queue, cpu_release_ready_queue, ite_self]

/-- `force_terminate_process` erases one occurrence of the pid from the
active list. -/
theorem force_terminate_active (k : ProcessManager) (pid : Nat)
    (cause : TerminationCause) (p : Process) (hp : k.findProc pid = some p) :
    (k.force_terminate_process pid cause).active_processes =
      k.active_processes.erase pid := by
  unfold ProcessManager.force_terminate_process
  rw [hp]
  dsimp only
  rw [free_process_memory_active]
  congr 1
  split <;>
    simp only [apply_ite (fun kk : ProcessManager => kk.active_processes),
      setProc_active, cpu_release_active, ite_self]

/-- `force_terminate_process` erases one occurrence of the pid from the
blocked list. -/
theorem force_terminate_blocked (k : ProcessManager) (pid : Nat)
    (cause : TerminationCause) (p : Process) (hp : k.findProc pid = some p) :
    (k.force_terminate_process pid cause).blocked_processes =
      k.blocked_processes.erase pid := by
  unfold ProcessManager.force_terminate_process
  rw [hp]
  dsimp only
  rw [free_process_memory_blocked]
  congr 1
  split <;>
    simp only [apply_ite (fun kk : ProcessManager => kk.blocked_processes),
      setProc_blocked, cpu_release_blocked, ite_self]

/-- `force_terminate_process` never touches the semaphore map, hence never
purges any semaphore wait queue. -/
theorem force_terminate_semaphores (k : ProcessManager) (pid : Nat)
    (cause : TerminationCause) :
    (k.force_terminate_process pid cause).semaphores = k.semaphores := by
  unfold ProcessManager.force_terminate_process
  split
  · rfl
  next p heq =>
    dsimp only
    rw [free_process_memory_semaphores]
    split <;>
      simp only [apply_ite (fun kk : ProcessManager => kk.semaphores),
        setProc_semaphores, cpu_release_semaphores, ite_self]

/-- Erasing the only occurrence removes membership. -/
theorem not_mem_erase_of_count_le_one (l : List Nat) (a : Nat)
    (h : l.count a ≤ 1) : a ∉ l.erase a := by
  intro hmem
  have h2 := List.count_erase_self a l
  have h3 : 0 < (l.erase a).count a := List.count_pos_iff.mpr hmem
  omega

/-- C2 (amended): force-terminating a found process frees, under the
RAM/page-table consistency invariant, every RAM frame and swap slot it
holds and drops its page table, and removes it from the ready queue, the
active list and the blocked list; the manager's waiting queue and the
semaphore map (hence every semaphore wait queue) are left exactly
unchanged, so the process is **not** absent from those queues. -/
theorem c2_amended_force_terminate (k : ProcessManager) (pid : Nat)
    (cause : TerminationCause) (p : Process)
    (hp : k.findProc pid = some p)
    (hcov : ∀ f, f < k.ram.length → k.ram.getD f none = some pid →
      k.ramCovered pid f = true)
    (hkeys : (k.page_tables.map Prod.fst).Nodup)
    (hc1 : k.ready_queue.count pid ≤ 1)
    (hc2 : k.active_processes.count pid ≤ 1)
    (hc3 : k.blocked_processes.count pid ≤ 1) :
    (∀ f, (k.force_terminate_process pid cause).ram.getD f none ≠ some pid) ∧
      (∀ s ∈ (k.force_terminate_process pid cause).swap.frames, ∀ pg,
        s ≠ some (pid, pg)) ∧
      assocGet (k.force_terminate_process pid cause).page_tables pid = none ∧
      pid ∉ (k.force_terminate_process pid cause).ready_queue ∧
      pid ∉ (k.force_terminate_process pid cause).active_processes ∧
      pid ∉ (k.force_terminate_process pid cause).blocked_processes ∧
      (k.force_terminate_process pid cause).waiting_queue = k.waiting_queue ∧
      (k.force_terminate_process pid cause).semaphores = k.semaphores := by
  have hmem := force_terminate_memory k pid cause p hp hcov hkeys
  refine ⟨hmem.1, hmem.2.1, hmem.2.2, ?_, ?_, ?_,
    force_terminate_waiting_queue k pid cause,
    force_terminate_semaphores k pid cause⟩
  · rw [force_terminate_ready_queue k pid cause p hp]
    exact not_mem_erase_of_count_le_one _ _ hc1
  · rw [force_terminate_active k pid cause p hp]
    exact not_mem_erase_of_count_le_one _ _ hc2
  · rw [force_terminate_blocked k pid cause p hp]
    exact not_mem_erase_of_count_le_one _ _ hc3

/-- Witness for the amended C2 at the concrete blocked state. -/
theorem c2_amended_witness :
    (scenarioBlocked.findProc 1 = some scenarioBlockedP1 ∧
        (∀ f, f < scenarioBlocked.ram.length →
          scenarioBlocked.ram.getD f none = some 1 →
          scenarioBlocked.ramCovered 1 f = true) ∧
        (scenarioBlocked.page_tables.map Prod.fst).Nodup ∧
        scenarioBlocked.ready_queue.count 1 ≤ 1 ∧
        scenarioBlocked.active_processes.count 1 ≤ 1 ∧
        scenarioBlocked.blocked_processes.count 1 ≤ 1) ∧
      ((∀ f, (scenarioBlocked.force_terminate_process 1
            TerminationCause.FORCED).ram.getD f none ≠ some 1) ∧
        (∀ s ∈ (scenarioBlocked.force_terminate_process 1
            TerminationCause.FORCED).swap.frames, ∀ pg, s ≠ some (1, pg)) ∧
        assocGet (scenarioBlocked.force_terminate_process 1
            TerminationCause.FORCED).page_tables 1 = none ∧
        1 ∉ (scenarioBlocked.force_terminate_process 1
            TerminationCause.FORCED).ready_queue ∧
        1 ∉ (scenarioBlocked.force_terminate_process 1
            TerminationCause.FORCED).active_processes ∧
        1 ∉ (scenarioBlocked.force_terminate_process 1
            TerminationCause.FORCED).blocked_processes ∧
        (scenarioBlocked.force_terminate_process 1
            TerminationCause.FORCED).waiting_queue =
          scenarioBlocked.waiting_queue ∧
        (scenarioBlocked.force_terminate_process 1
            TerminationCause.FORCED).semaphores =
          scenarioBlocked.semaphores) :=
  ⟨⟨by decide, by decide, by decide, by decide, by decide, by decide⟩,
    c2_amended_force_terminate scenarioBlocked 1 TerminationCause.FORCED
      scenarioBlockedP1 (by decide) (by decide) (by decide) (by decide)
      (by decide) (by decide)⟩

theorem countsOkEq_refl (k : ProcessManager) : countsOkEq k k :=
  ⟨rfl, rfl, rfl, rfl, rfl, rfl⟩

theorem countsOkEq_trans {k1 k2 k3 : ProcessManager} (h1 : countsOkEq k1 k2)
    (h2 : countsOkEq k2 k3) : countsOkEq k1 k3 :=
  ⟨h2.1.trans h1.1, h2.2.1.trans h1.2.1, h2.2.2.1.trans h1.2.2.1,
    h2.2.2.2.1.trans h1.2.2.2.1, h2.2.2.2.2.1.trans h1.2.2.2.2.1,
    h2.2.2.2.2.2.trans h1.2.2.2.2.2⟩

theorem liveCount_procSig (k : ProcessManager) :
    k.liveCount = k.procSig.countP liveSig := by
  unfold ProcessManager.liveCount ProcessManager.procSig
  rw [List.countP_map]
  rfl

theorem mapPid_procSig (k : ProcessManager) :
    k.mapPid = k.procSig.map Prod.fst := by
  unfold ProcessManager.mapPid ProcessManager.procSig
  rw [List.map_map]
  rfl

theorem sameCounts_countsOkEq {k1 k2 : ProcessManager} (h : sameCounts k1 k2) :
    countsOkEq k1 k2 := by
  obtain ⟨hs, h2, h3, h4, h5⟩ := h
  refine ⟨?_, ?_, h2, h3, h4, h5⟩
  · rw [liveCount_procSig, liveCount_procSig, hs]
  · rw [mapPid_procSig, mapPid_procSig, hs]

theorem sameCounts_refl (k : ProcessManager) : sameCounts k k :=
  ⟨rfl, rfl, rfl, rfl, rfl⟩

theorem sameCounts_trans {k1 k2 k3 : ProcessManager} (h1 : sameCounts k1 k2)
    (h2 : sameCounts k2 k3) : sameCounts k1 k3 :=
  ⟨h2.1.trans h1.1, h2.2.1.trans h1.2.1, h2.2.2.1.trans h1.2.2.1,
    h2.2.2.2.1.trans h1.2.2.2.1, h2.2.2.2.2.trans h1.2.2.2.2⟩

theorem stateOf_procSig : ∀ (l : List Process) (pid : Nat),
    (findP pid l).map Process.state =
      ((l.map (fun p => (p.pid, p.state))).find?
        (fun pr => pr.1 = pid)).map Prod.snd := by
  intro l
  induction l with
  | nil => intro pid; rfl
  | cons a rest ih =>
      intro pid
      by_cases h : a.pid = pid
      · simp only [findP, List.find?_cons, List.map_cons, decide_eq_true h]
        rfl
      · simp only [findP, List.find?_cons, List.map_cons, decide_eq_false h]
        exact ih pid

theorem liveB_stateOf (k : ProcessManager) (pid : Nat) :
    k.liveB pid =
      ((k.stateOf pid).map
        (fun st => decide (st ≠ ProcessState.TERMINATED))).getD false := by
  unfold ProcessManager.liveB ProcessManager.stateOf ProcessManager.findProc
  cases findP pid k.all_processes <;> rfl

theorem stateOf_eq_of_procSig {k1 k2 : ProcessManager}
    (h : k2.procSig = k1.procSig) (pid : Nat) :
    k2.stateOf pid = k1.stateOf pid := by
  unfold ProcessManager.stateOf ProcessManager.findProc
  rw [stateOf_procSig, stateOf_procSig]
  show ((k2.procSig).find? _).map _ = ((k1.procSig).find? _).map _
  rw [h]

theorem liveB_eq_of_sameCounts {k1 k2 : ProcessManager} (h : sameCounts k1 k2)
    (pid : Nat) : k2.liveB pid = k1.liveB pid := by
  rw [liveB_stateOf, liveB_stateOf, stateOf_eq_of_procSig h.1]

theorem Inv_of_countsOkEq {k1 k2 : ProcessManager} (h : countsOkEq k1 k2)
    (hI : k1.Inv) : k2.Inv := by
  obtain ⟨hl, hm, h2, h3, h4, h5⟩ := h
  obtain ⟨hc, hnd, hb⟩ := hI
  refine ⟨?_, ?_, ?_⟩
  · show k2.stats.rejected_processes + k2.stats.forced_terminations +
      k2.liveCount = k2.stats.total_processes
    rw [h2, h3, h4, hl]
    exact hc
  · show (k2.all_processes.map Process.pid).Nodup
    have : k2.mapPid = k1.mapPid := hm
    unfold ProcessManager.mapPid at this
    rw [this]
    exact hnd
  · intro p hp2
    have hmem : p.pid ∈ k2.mapPid := List.mem_map_of_mem Process.pid hp2
    rw [hm] at hmem
    rcases List.mem_map.mp hmem with ⟨q, hq, hqe⟩
    rw [h5, ← hqe]
    exact hb q hq

theorem sameCounts_of_parts {k1 k2 : ProcessManager}
    (hp : k2.all_processes = k1.all_processes)
    (hr : k2.stats.rejected_processes = k1.stats.rejected_processes)
    (hf : k2.stats.forced_terminations = k1.stats.forced_terminations)
    (ht : k2.stats.total_processes = k1.stats.total_processes)
    (hc : k2.pid_counter = k1.pid_counter) : sameCounts k1 k2 := by
  refine ⟨?_, hr, hf, ht, hc⟩
  unfold ProcessManager.procSig
  rw [hp]

theorem foldl_sameCounts {α : Type} (h : ProcessManager → α → ProcessManager)
    (hh : ∀ acc a, sameCounts acc (h acc a)) :
    ∀ (l : List α) (acc : ProcessManager), sameCounts acc (l.foldl h acc) := by
  intro l
  induction l with
  | nil => intro acc; exact sameCounts_refl acc
  | cons a rest ih =>
      intro acc
      exact sameCounts_trans (hh acc a) (ih (h acc a))

theorem procSig_setProc (k : ProcessManager) (pid : Nat) (f : Process → Process)
    (hfp : ∀ q, (f q).pid = q.pid) (hfs : ∀ q, (f q).state = q.state) :
    (k.setProc pid f).procSig = k.procSig := by
  unfold ProcessManager.procSig ProcessManager.setProc updP
  show (k.all_processes.map _).map _ = _
  rw [List.map_map]
  refine List.map_congr_left ?_
  intro p _
  by_cases h : p.pid = pid
  · simp [Function.comp, h, hfp p, hfs p]
  · simp [Function.comp, h]

theorem sameCounts_setProc (k : ProcessManager) (pid : Nat) (f : Process → Process)
    (hfp : ∀ q, (f q).pid = q.pid) (hfs : ∀ q, (f q).state = q.state) :
    sameCounts k (k.setProc pid f) :=
  ⟨procSig_setProc k pid f hfp hfs, rfl, rfl, rfl, rfl⟩

theorem sameCounts_updateEntry (k : ProcessManager) (pid page : Nat)
    (f : PageTableEntry → PageTableEntry) :
    sameCounts k (k.updateEntry pid page f) := by
  unfold ProcessManager.updateEntry
  split
  · exact sameCounts_refl k
  · split
    · exact sameCounts_refl k
    · exact sameCounts_of_parts rfl rfl rfl rfl rfl

theorem sameCounts_swap_out (k : ProcessManager) (pid page : Nat) :
    sameCounts k (k.swap_out pid page) := by
  unfold ProcessManager.swap_out
  split
  · exact sameCounts_refl k
  next pt hpt =>
    split
    · exact sameCounts_refl k
    next entry hentry =>
      split
      · rcases hsw : k.swap.allocate pid page with ⟨sm, sl⟩
        dsimp only
        cases sl with
        | none => exact sameCounts_of_parts rfl rfl rfl rfl rfl
        | some s =>
            have h1 : sameCounts k { k with swap := sm } :=
              sameCounts_of_parts rfl rfl rfl rfl rfl
            have h2 := sameCounts_trans h1
              (sameCounts_updateEntry { k with swap := sm } pid page
                (fun e => { e with frame := none, swap_loc := some s, in_ram := false }))
            cases hframe : entry.frame with
            | some f =>
                have h3 := sameCounts_trans h2
                  (@sameCounts_of_parts
                    (ProcessManager.updateEntry { k with swap := sm } pid page
                      (fun e => { e with frame := none, swap_loc := some s, in_ram := false }))
                    { (ProcessManager.updateEntry { k with swap := sm } pid page
                        (fun e => { e with frame := none, swap_loc := some s, in_ram := false })) with
                      ram := (ProcessManager.updateEntry { k with swap := sm } pid page
                        (fun e => { e with frame := none, swap_loc := some s, in_ram := false })).ram.set f none
                      frame_map := (ProcessManager.updateEntry { k with swap := sm } pid page
                        (fun e => { e with frame := none, swap_loc := some s, in_ram := false })).frame_map.set f none }
                    rfl rfl rfl rfl rfl)
                have h4 := sameCounts_trans h3
                  (sameCounts_setProc _ pid
                    (fun q => { q with pages_in_ram := q.pages_in_ram.erase page
                                       pages_in_swap := setAdd q.pages_in_swap page })
                    (fun q => rfl) (fun q => rfl))
                exact sameCounts_trans h4 (sameCounts_of_parts rfl rfl rfl rfl rfl)
            | none =>
                have h4 := sameCounts_trans h2
                  (sameCounts_setProc _ pid
                    (fun q => { q with pages_in_ram := q.pages_in_ram.erase page
                                       pages_in_swap := setAdd q.pages_in_swap page })
                    (fun q => rfl) (fun q => rfl))
                exact sameCounts_trans h4 (sameCounts_of_parts rfl rfl rfl rfl rfl)
      · exact sameCounts_refl k

theorem sameCounts_swapin_install (k0 : ProcessManager) (pid page s f : Nat) :
    sameCounts k0
      (let k2 : ProcessManager := { k0 with
         ram := k0.ram.set f (some pid)
         frame_map := k0.frame_map.set f (some (pid, page)) }
       let k3 := k2.updateEntry pid page (fun e =>
         { e with
           frame := some f, swap_loc := none, in_ram := true
           last_access := k2.current_time })
       let k4 : ProcessManager := { k3 with swap := k3.swap.free s }
       k4.setProc pid (fun q =>
         { q with pages_in_swap := q.pages_in_swap.erase page
                  pages_in_ram := setAdd q.pages_in_ram page
                  last_access_time := assocSet q.last_access_time page k4.current_time })) := by
  dsimp only
  refine sameCounts_trans (@sameCounts_of_parts k0
    { k0 with
      ram := k0.ram.set f (some pid)
      frame_map := k0.frame_map.set f (some (pid, page)) } rfl rfl rfl rfl rfl) ?_
  refine sameCounts_trans (sameCounts_updateEntry _ pid page
    (fun e => { e with
      frame := some f, swap_loc := none, in_ram := true
      last_access := k0.current_time })) ?_
  refine sameCounts_trans (@sameCounts_of_parts _
    { (ProcessManager.updateEntry
        { k0 with
          ram := k0.ram.set f (some pid)
          frame_map := k0.frame_map.set f (some (pid, page)) } pid page
        (fun e => { e with
          frame := some f, swap_loc := none, in_ram := true
          last_access := k0.current_time })) with
      swap := (ProcessManager.updateEntry
        { k0 with
          ram := k0.ram.set f (some pid)
          frame_map := k0.frame_map.set f (some (pid, page)) } pid page
        (fun e => { e with
          frame := some f, swap_loc := none, in_ram := true
          last_access := k0.current_time })).swap.free s } rfl rfl rfl rfl rfl) ?_
  exact sameCounts_setProc _ pid _ (fun q => rfl) (fun q => rfl)

theorem sameCounts_swap_in (k : ProcessManager) (pid page : Nat) :
    sameCounts k (k.swap_in pid page).1 := by
  unfold ProcessManager.swap_in
  split
  · exact sameCounts_refl k
  split
  · exact sameCounts_refl k
  split
  · exact sameCounts_refl k
  next s hs =>
    cases hfr : firstNoneIdx k.ram with
    | some f =>
        dsimp only
        exact sameCounts_swapin_install k pid page s f
    | none =>
        cases hlru : k.lru_select_victim with
        | none => dsimp only; exact sameCounts_refl k
        | some vv =>
            rcases vv with ⟨vp, vpage⟩
            dsimp only
            cases hfr2 : firstNoneIdx (k.swap_out vp vpage).ram with
            | none => dsimp only; exact sameCounts_swap_out k vp vpage
            | some f =>
                dsimp only
                exact sameCounts_trans (sameCounts_swap_out k vp vpage)
                  (sameCounts_swapin_install (k.swap_out vp vpage) pid page s f)

theorem sameCounts_assign_to_ram (k : ProcessManager) (pid : Nat) :
    sameCounts k (k.assign_to_ram pid) := by
  unfold ProcessManager.assign_to_ram
  split
  · exact sameCounts_refl k
  next p hp =>
    refine foldl_sameCounts _ ?_ (List.range p.num_pages) k
    intro acc page_num
    cases hfr : firstNoneIdx acc.ram with
    | none => dsimp only; exact sameCounts_refl acc
    | some frame =>
        dsimp only
        refine sameCounts_trans (@sameCounts_of_parts acc
          { acc with
            ram := acc.ram.set frame (some pid)
            frame_map := acc.frame_map.set frame (some (pid, page_num)) }
          rfl rfl rfl rfl rfl) ?_
        refine sameCounts_trans (sameCounts_updateEntry _ pid page_num
          (fun e => { e with
            frame := some frame, in_ram := true
            last_access := acc.current_time })) ?_
        exact sameCounts_setProc _ pid _ (fun q => rfl) (fun q => rfl)

theorem sameCounts_execute_cycle (k : ProcessManager) :
    sameCounts k (k.execute_cycle).1 := by
  unfold ProcessManager.execute_cycle
  split
  next q hq =>
    refine sameCounts_trans
      (sameCounts_setProc k q (fun p => { p with remaining_cpu := p.remaining_cpu - 1 })
        (fun p => rfl) (fun p => rfl)) ?_
    exact sameCounts_of_parts rfl rfl rfl rfl rfl
  · exact sameCounts_of_parts rfl rfl rfl rfl rfl

theorem sameCounts_increment_time (k : ProcessManager) :
    sameCounts k k.increment_time := by
  unfold ProcessManager.increment_time
  dsimp only
  refine sameCounts_trans (@sameCounts_of_parts k
    { k with current_time := k.current_time + 1 } rfl rfl rfl rfl rfl) ?_
  refine foldl_sameCounts _ ?_ _ _
  intro acc pid
  cases h : acc.findProc pid with
  | none => dsimp only; exact sameCounts_refl acc
  | some p =>
      dsimp only
      split
      · exact sameCounts_setProc acc pid _ (fun q => rfl) (fun q => rfl)
      · exact sameCounts_refl acc

theorem sameCounts_freeRamStep (k : ProcessManager) (pid page : Nat) :
    sameCounts k (k.freeRamStep pid page) := by
  rcases freeRamStep_shape k pid page with ⟨r, fm, h⟩
  rw [h]
  exact sameCounts_of_parts rfl rfl rfl rfl rfl

theorem sameCounts_free_process_memory (k : ProcessManager) (pid : Nat) :
    sameCounts k (k.free_process_memory pid) := by
  rcases free_process_memory_shape k pid with ⟨r, fm, sw, ptab, h⟩
  rw [h]
  exact sameCounts_of_parts rfl rfl rfl rfl rfl

theorem sameCounts_access_tail (k k1 : ProcessManager) (pid page : Nat)
    (h1 : sameCounts k k1) :
    sameCounts k
      (let k2 : ProcessManager := { k1 with stats :=
         { k1.stats with memory_accesses := k1.stats.memory_accesses + 1 } }
       match k2.findProc pid with
       | none => k2
       | some p2 =>
           if (assocGet p2.last_access_time page).isSome then
             k2.setProc pid (fun q =>
               { q with last_access_time := assocSet q.last_access_time page k2.current_time })
           else k2) := by
  dsimp only
  have h2 := sameCounts_trans h1 (@sameCounts_of_parts k1
    { k1 with stats :=
      { k1.stats with memory_accesses := k1.stats.memory_accesses + 1 } }
    rfl rfl rfl rfl rfl)
  split
  · exact h2
  next p2 hp2 =>
    split
    · exact sameCounts_trans h2 (sameCounts_setProc _ pid _ (fun q => rfl) (fun q => rfl))
    · exact h2

theorem sameCounts_access_page (k : ProcessManager) (pid page : Nat) :
    sameCounts k (k.access_page pid page) := by
  unfold ProcessManager.access_page
  split
  · exact sameCounts_refl k
  next pt hpt =>
    split
    · exact sameCounts_refl k
    next p hp =>
      dsimp only
      have hka := sameCounts_setProc k pid
        (fun q => { q with page_faults := q.page_faults + 1 })
        (fun q => rfl) (fun q => rfl)
      have hkb : sameCounts k
          { (k.setProc pid (fun q => { q with page_faults := q.page_faults + 1 })) with
            stats := { k.stats with
              total_page_faults := k.stats.total_page_faults + 1 } } :=
        sameCounts_trans hka (sameCounts_of_parts rfl rfl rfl rfl rfl)
      by_cases hfault : (pt.translate page).2 = true
      · rw [if_pos hfault]
        by_cases hsw : page ∈ p.pages_in_swap
        · rw [if_pos hsw]
          exact sameCounts_access_tail k _ pid page
            (sameCounts_trans hkb (sameCounts_swap_in _ pid page))
        · rw [if_neg hsw]
          exact sameCounts_access_tail k _ pid page hkb
      · rw [if_neg hfault]
        exact sameCounts_access_tail k _ pid page (sameCounts_refl k)

theorem liveB_of_procs_eq {k1 k2 : ProcessManager}
    (h : k2.all_processes = k1.all_processes) (q : Nat) :
    k2.liveB q = k1.liveB q := by
  unfold ProcessManager.liveB ProcessManager.findProc
  rw [h]

theorem liveB_setProc_live (k : ProcessManager) (pid : Nat) (f : Process → Process)
    (hfp : ∀ r, (f r).pid = r.pid) (hfl : ∀ r, liveP (f r) = true) (q : Nat)
    (h : k.liveB q = true) : (k.setProc pid f).liveB q = true := by
  unfold ProcessManager.liveB ProcessManager.findProc at h
  unfold ProcessManager.liveB ProcessManager.findProc ProcessManager.setProc
  by_cases hq : q = pid
  · subst hq
    rw [findP_updP_self q f hfp]
    cases hfind : findP q k.all_processes with
    | none => rw [hfind] at h; exact absurd h (by simp)
    | some p => exact hfl p
  · rw [findP_updP_ne pid q f hfp _ hq]
    exact h

theorem liveB_setProc_statepres (k : ProcessManager) (pid : Nat)
    (f : Process → Process) (hfp : ∀ r, (f r).pid = r.pid)
    (hfs : ∀ r, (f r).state = r.state) (q : Nat) :
    (k.setProc pid f).liveB q = k.liveB q := by
  unfold ProcessManager.liveB ProcessManager.findProc ProcessManager.setProc
  by_cases hq : q = pid
  · subst hq
    rw [findP_updP_self q f hfp]
    cases hfind : findP q k.all_processes with
    | none => rfl
    | some p => simp [hfs p]
  · rw [findP_updP_ne pid q f hfp _ hq]

theorem liveB_cpu_release_of (k : ProcessManager) (q : Nat)
    (h : k.liveB q = true) : k.cpu_release.liveB q = true := by
  unfold ProcessManager.cpu_release
  split
  · exact h
  next c hc =>
    have := liveB_setProc_live k c
      (fun p => { p with state := ProcessState.READY })
      (fun p => rfl) (fun p => rfl) q h
    exact (liveB_of_procs_eq rfl q).trans this

theorem cpuOkB_cpu_release (k : ProcessManager) : k.cpu_release.cpuOkB = true := by
  unfold ProcessManager.cpu_release
  split
  next hc => unfold ProcessManager.cpuOkB; rw [hc]
  next c hc => rfl

theorem nodup_of_countsOkEq {k1 k2 : ProcessManager} (h : countsOkEq k1 k2)
    (hnd : (k1.all_processes.map Process.pid).Nodup) :
    (k2.all_processes.map Process.pid).Nodup := by
  show k2.mapPid.Nodup
  rw [h.2.1]
  exact hnd

theorem Inv_of_delta {k1 k2 : ProcessManager} (hI : k1.Inv)
    (hm : k2.mapPid = k1.mapPid) (hc : k2.pid_counter = k1.pid_counter)
    (hcount : k2.stats.rejected_processes + k2.stats.forced_terminations +
        k2.liveCount =
      k1.stats.rejected_processes + k1.stats.forced_terminations + k1.liveCount)
    (ht : k2.stats.total_processes = k1.stats.total_processes) : k2.Inv := by
  obtain ⟨hcnt, hnd, hb⟩ := hI
  refine ⟨?_, ?_, ?_⟩
  · show k2.stats.rejected_processes + k2.stats.forced_terminations + k2.liveCount =
      k2.stats.total_processes
    rw [hcount, ht]
    exact hcnt
  · show (k2.all_processes.map Process.pid).Nodup
    have : k2.mapPid = k1.mapPid := hm
    unfold ProcessManager.mapPid at this
    rw [this]
    exact hnd
  · intro p hp2
    have hmem : p.pid ∈ k2.mapPid := List.mem_map_of_mem Process.pid hp2
    rw [hm] at hmem
    rcases List.mem_map.mp hmem with ⟨q, hq, hqe⟩
    rw [hc, ← hqe]
    exact hb q hq

theorem countsOkEq_setProc_live (k : ProcessManager) (pid : Nat)
    (f : Process → Process) (hfp : ∀ r, (f r).pid = r.pid)
    (hfl : ∀ r, liveP (f r) = true)
    (hnd : (k.all_processes.map Process.pid).Nodup)
    (hlive : k.liveB pid = true) : countsOkEq k (k.setProc pid f) := by
  unfold ProcessManager.liveB at hlive
  cases hfind : k.findProc pid with
  | none => rw [hfind] at hlive; exact absurd hlive (by simp)
  | some p₀ =>
      rw [hfind] at hlive
      have hl0 : liveP p₀ = true := hlive
      have hdelta := countP_updP_found pid f k.all_processes hnd p₀ hfind
      rw [if_pos hl0, if_pos (hfl p₀)] at hdelta
      refine ⟨?_, ?_, rfl, rfl, rfl, rfl⟩
      · show (updP pid f k.all_processes).countP liveP = k.all_processes.countP liveP
        omega
      · show (updP pid f k.all_processes).map Process.pid =
          k.all_processes.map Process.pid
        exact updP_pid_map pid f hfp k.all_processes

theorem setProc_dead_delta (k : ProcessManager) (pid : Nat)
    (f : Process → Process) (hfp : ∀ r, (f r).pid = r.pid)
    (hfd : ∀ r, liveP (f r) = false)
    (hnd : (k.all_processes.map Process.pid).Nodup)
    (hlive : k.liveB pid = true) :
    (k.setProc pid f).liveCount + 1 = k.liveCount ∧
      (k.setProc pid f).mapPid = k.mapPid := by
  unfold ProcessManager.liveB at hlive
  cases hfind : k.findProc pid with
  | none => rw [hfind] at hlive; exact absurd hlive (by simp)
  | some p₀ =>
      rw [hfind] at hlive
      have hl0 : liveP p₀ = true := hlive
      have hdelta := countP_updP_found pid f k.all_processes hnd p₀ hfind
      rw [if_pos hl0, if_neg (by rw [hfd p₀]; exact Bool.false_ne_true)] at hdelta
      constructor
      · show (updP pid f k.all_processes).countP liveP + 1 =
          k.all_processes.countP liveP
        omega
      · show (updP pid f k.all_processes).map Process.pid =
          k.all_processes.map Process.pid
        exact updP_pid_map pid f hfp k.all_processes

theorem countsOkEq_cpu_release (k : ProcessManager)
    (hnd : (k.all_processes.map Process.pid).Nodup)
    (hcpu : k.cpuOkB = true) : countsOkEq k k.cpu_release := by
  unfold ProcessManager.cpu_release
  split
  · exact countsOkEq_refl k
  next c hc =>
    unfold ProcessManager.cpuOkB at hcpu
    rw [hc] at hcpu
    have h1 := countsOkEq_setProc_live k c
      (fun p => { p with state := ProcessState.READY })
      (fun p => rfl) (fun p => rfl) hnd hcpu
    exact countsOkEq_trans h1 ⟨rfl, rfl, rfl, rfl, rfl, rfl⟩

theorem countsOkEq_add_process (k : ProcessManager) (pid : Nat)
    (hnd : (k.all_processes.map Process.pid).Nodup) :
    countsOkEq k (k.add_process pid) := by
  unfold ProcessManager.add_process
  split
  · exact countsOkEq_refl k
  next p hp =>
    split
    · next hcond =>
        have hlive : k.liveB pid = true := by
          unfold ProcessManager.liveB
          rw [hp]
          rcases hcond with h | h <;> simp [h]
        have h1 := countsOkEq_setProc_live k pid
          (fun q => { q with state := ProcessState.READY })
          (fun q => rfl) (fun q => rfl) hnd hlive
        exact countsOkEq_trans h1 ⟨rfl, rfl, rfl, rfl, rfl, rfl⟩
    · exact countsOkEq_refl k

theorem setProc_findProc_self (k : ProcessManager) (pid : Nat)
    (f : Process → Process) (hfp : ∀ r, (f r).pid = r.pid) :
    (k.setProc pid f).findProc pid = (k.findProc pid).map f :=
  findP_updP_self pid f hfp k.all_processes

theorem ft_tail (k k2 : ProcessManager) (pid : Nat) (st0 : Option Nat)
    (hdl : k2.liveCount + 1 = k.liveCount) (hdm : k2.mapPid = k.mapPid)
    (hr : k2.stats.rejected_processes = k.stats.rejected_processes)
    (hf : k2.stats.forced_terminations = k.stats.forced_terminations)
    (ht : k2.stats.total_processes = k.stats.total_processes)
    (hc : k2.pid_counter = k.pid_counter) :
    (let k3 := match st0 with
       | some st =>
           if st ≠ 0 then
             k2.setProc pid (fun q =>
               let ta : Int := ((q.finish_time.getD 0 : Nat) : Int) - (q.arrival_time : Int)
               { q with turnaround_time := ta
                        waiting_time := ta - ((q.cpu_burst : Int) - q.remaining_cpu) })
           else k2
       | none => k2
     let k4 := k3.free_process_memory pid
     let k5 := { k4 with active_processes := k4.active_processes.erase pid
                         blocked_processes := k4.blocked_processes.erase pid
                         ready_queue := k4.ready_queue.erase pid }
     let kf : ProcessManager := { k5 with stats :=
         { k5.stats with forced_terminations := k5.stats.forced_terminations + 1 } }
     kf.liveCount + 1 = k.liveCount ∧ kf.mapPid = k.mapPid ∧
       kf.stats.rejected_processes = k.stats.rejected_processes ∧
       kf.stats.forced_terminations = k.stats.forced_terminations + 1 ∧
       kf.stats.total_processes = k.stats.total_processes ∧
       kf.pid_counter = k.pid_counter) := by
  have main : ∀ X : ProcessManager, countsOkEq k2 X →
      ((X.free_process_memory pid).liveCount + 1 = k.liveCount ∧
       (X.free_process_memory pid).mapPid = k.mapPid ∧
       (X.free_process_memory pid).stats.rejected_processes =
         k.stats.rejected_processes ∧
       (X.free_process_memory pid).stats.forced_terminations + 1 =
         k.stats.forced_terminations + 1 ∧
       (X.free_process_memory pid).stats.total_processes =
         k.stats.total_processes ∧
       (X.free_process_memory pid).pid_counter = k.pid_counter) := by
    intro X cX
    have cF := countsOkEq_trans cX
      (sameCounts_countsOkEq (sameCounts_free_process_memory X pid))
    obtain ⟨e1, e2, e3, e4, e5, e6⟩ := cF
    exact ⟨by omega, e2.trans hdm, e3.trans hr, by omega, e5.trans ht, e6.trans hc⟩
  dsimp only
  cases st0 with
  | none => exact main k2 (countsOkEq_refl k2)
  | some st =>
      dsimp only
      split
      · exact main _ (sameCounts_countsOkEq
          (sameCounts_setProc k2 pid _ (fun q => rfl) (fun q => rfl)))
      · exact main k2 (countsOkEq_refl k2)

theorem force_terminate_counts (k : ProcessManager) (pid : Nat)
    (cause : TerminationCause)
    (hnd : (k.all_processes.map Process.pid).Nodup)
    (hlive : k.liveB pid = true) (hcpu : k.cpuOkB = true) :
    (k.force_terminate_process pid cause).liveCount + 1 = k.liveCount ∧
    (k.force_terminate_process pid cause).mapPid = k.mapPid ∧
    (k.force_terminate_process pid cause).stats.rejected_processes =
      k.stats.rejected_processes ∧
    (k.force_terminate_process pid cause).stats.forced_terminations =
      k.stats.forced_terminations + 1 ∧
    (k.force_terminate_process pid cause).stats.total_processes =
      k.stats.total_processes ∧
    (k.force_terminate_process pid cause).pid_counter = k.pid_counter := by
  unfold ProcessManager.force_terminate_process
  split
  · next hfp =>
      exfalso
      unfold ProcessManager.liveB at hlive
      rw [hfp] at hlive
      exact absurd hlive (by simp)
  next p hp =>
    dsimp only
    by_cases hrun : p.state = ProcessState.RUNNING
    · rw [if_pos hrun]
      have c1 := countsOkEq_cpu_release k hnd hcpu
      have hlive1 := liveB_cpu_release_of k pid hlive
      have hnd1 := nodup_of_countsOkEq c1 hnd
      have hd := setProc_dead_delta k.cpu_release pid
        (fun q => { q with state := ProcessState.TERMINATED
                           termination_cause := some cause
                           finish_time := some k.cpu_release.current_time })
        (fun q => rfl) (fun q => rfl) hnd1 hlive1
      obtain ⟨c11, c12, c13, c14, c15, c16⟩ := c1
      refine ft_tail k _ pid p.start_time ?_ ?_ ?_ ?_ ?_ ?_
      · omega
      · exact hd.2.trans c12
      · exact c13
      · exact c14
      · exact c15
      · exact c16
    · rw [if_neg hrun]
      have hd := setProc_dead_delta k pid
        (fun q => { q with state := ProcessState.TERMINATED
                           termination_cause := some cause
                           finish_time := some k.current_time })
        (fun q => rfl) (fun q => rfl) hnd hlive
      exact ft_tail k _ pid p.start_time hd.1 hd.2 rfl rfl rfl rfl

theorem kill_Inv (k : ProcessManager) (pid : Nat) (cause : TerminationCause)
    (hI : k.Inv) (hlive : k.liveB pid = true) (hcpu : k.cpuOkB = true) :
    (k.force_terminate_process pid cause).Inv := by
  obtain ⟨hcnt, hnd, hb⟩ := hI
  obtain ⟨h1, h2, h3, h4, h5, h6⟩ :=
    force_terminate_counts k pid cause hnd hlive hcpu
  refine Inv_of_delta ⟨hcnt, hnd, hb⟩ h2 h6 ?_ h5
  omega

theorem terminate_Inv (k : ProcessManager) (pid : Nat)
    (hI : k.Inv) (hlive : k.liveB pid = true) (hcpu : k.cpuOkB = true) :
    (k.terminate_process pid).Inv := by
  unfold ProcessManager.terminate_process
  split
  · exact hI
  next p hp =>
    dsimp only
    exact Inv_of_delta
      (kill_Inv k pid
        (if p.remaining_cpu ≤ 0 then TerminationCause.COMPLETED
         else if p.remaining_lifetime ≤ 0 then TerminationCause.TIMEOUT
         else TerminationCause.ERROR) hI hlive hcpu) rfl rfl rfl rfl

theorem create_Inv (k : ProcessManager) (s l pr : Nat) (b : Option Nat)
    (hI : k.Inv) : ((k.create_process s l pr b).1).Inv := by
  obtain ⟨hcnt, hnd, hb⟩ := hI
  unfold ProcessManager.create_process
  dsimp only
  refine ⟨?_, ?_, ?_⟩
  · show k.stats.rejected_processes + k.stats.forced_terminations +
      ((k.all_processes ++ [_]).countP liveP) = k.stats.total_processes + 1
    rw [List.countP_append]
    have hone : ∀ p : Process, p.state = ProcessState.NEW →
        [p].countP liveP = 1 := by
      intro p hp
      simp [List.countP_cons, liveP, hp]
    rw [hone _ rfl]
    have hcnt2 : k.stats.rejected_processes + k.stats.forced_terminations +
        k.all_processes.countP liveP = k.stats.total_processes := hcnt
    omega
  · show ((k.all_processes ++ [_]).map Process.pid).Nodup
    rw [List.map_append]
    rw [List.nodup_append]
    refine ⟨hnd, by simp, ?_⟩
    intro a ha hmem
    simp only [List.map_cons, List.map_nil, List.mem_singleton] at hmem
    rcases List.mem_map.mp ha with ⟨q, hq, hqe⟩
    have := hb q hq
    omega
  · intro p hp
    rcases List.mem_append.mp hp with h | h
    · exact Nat.le_succ_of_le (hb p h)
    · rw [List.mem_singleton] at h
      subst h
      exact Nat.le_refl _

theorem countsOkEq_requeue (k : ProcessManager) (rq aq bq wq : List Nat) :
    countsOkEq k { k with ready_queue := rq, active_processes := aq,
                          blocked_processes := bq, waiting_queue := wq } :=
  ⟨rfl, rfl, rfl, rfl, rfl, rfl⟩

theorem countsOkEq_set_stats (k : ProcessManager) (s : Statistics)
    (hr : s.rejected_processes = k.stats.rejected_processes)
    (hf : s.forced_terminations = k.stats.forced_terminations)
    (ht : s.total_processes = k.stats.total_processes) :
    countsOkEq k { k with stats := s } :=
  ⟨rfl, rfl, hr, hf, ht, rfl⟩

theorem countsOkEq_set_sems (k : ProcessManager)
    (sems : List (String × Semaphore)) :
    countsOkEq k { k with semaphores := sems } :=
  ⟨rfl, rfl, rfl, rfl, rfl, rfl⟩

theorem countsOkEq_set_ptabs (k : ProcessManager)
    (ptabs : List (Nat × PageTable)) :
    countsOkEq k { k with page_tables := ptabs } :=
  ⟨rfl, rfl, rfl, rfl, rfl, rfl⟩

theorem countsOkEq_set_cpu (k : ProcessManager) (c : CPU) :
    countsOkEq k { k with cpu := c } :=
  ⟨rfl, rfl, rfl, rfl, rfl, rfl⟩

theorem countsOkEq_install (k0 : ProcessManager) (pid : Nat)
    (hnd : (k0.all_processes.map Process.pid).Nodup)
    (hlive : k0.liveB pid = true) :
    countsOkEq k0
      (let ka := k0.assign_to_ram pid
       let kb := ka.setProc pid (fun q => { q with state := ProcessState.READY })
       let kc : ProcessManager :=
         { kb with active_processes := kb.active_processes ++ [pid] }
       kc.add_process pid) := by
  dsimp only
  have c1 := sameCounts_assign_to_ram k0 pid
  have hnd1 := nodup_of_countsOkEq (sameCounts_countsOkEq c1) hnd
  have hlive1 : (k0.assign_to_ram pid).liveB pid = true :=
    (liveB_eq_of_sameCounts c1 pid).trans hlive
  have c2 := countsOkEq_setProc_live (k0.assign_to_ram pid) pid
    (fun q => { q with state := ProcessState.READY })
    (fun q => rfl) (fun q => rfl) hnd1 hlive1
  have c12 := countsOkEq_trans (sameCounts_countsOkEq c1) c2
  refine countsOkEq_trans (countsOkEq_trans c12 (countsOkEq_requeue _ _ _ _ _))
    (countsOkEq_add_process _ pid ?_)
  exact nodup_of_countsOkEq
    (countsOkEq_trans c12 (countsOkEq_requeue _ _ _ _ _)) hnd

theorem countsOkEq_allocate_with_swap (k : ProcessManager) (pid : Nat)
    (hnd : (k.all_processes.map Process.pid).Nodup)
    (hlive : k.liveB pid = true) :
    countsOkEq k (k.allocate_with_swap pid).1 := by
  unfold ProcessManager.allocate_with_swap
  split
  · exact countsOkEq_refl k
  next p hp =>
    dsimp only
    split
    · refine countsOkEq_trans (countsOkEq_requeue k _ _ _ _)
        (countsOkEq_setProc_live _ pid _ (fun q => rfl) (fun q => rfl) ?_ ?_)
      · exact hnd
      · exact hlive
    · have hh : ∀ (acc : ProcessManager) (a : Nat),
          sameCounts acc
            (match acc.lru_select_victim with
             | some (vp, vpage) => acc.swap_out vp vpage
             | none => acc) := by
        intro acc a
        cases h : acc.lru_select_victim with
        | none => exact sameCounts_refl acc
        | some vv =>
            rcases vv with ⟨vp, vpage⟩
            exact sameCounts_swap_out acc vp vpage
      refine countsOkEq_trans
        (sameCounts_countsOkEq (foldl_sameCounts _ hh _ _))
        (countsOkEq_install _ pid ?_ ?_)
      · exact nodup_of_countsOkEq
          (sameCounts_countsOkEq (foldl_sameCounts _ hh _ _)) hnd
      · exact (liveB_eq_of_sameCounts (foldl_sameCounts _ hh _ _) pid).trans hlive

theorem allocate_Inv (k : ProcessManager) (pid : Nat)
    (hI : k.Inv) (hlive : k.liveB pid = true) :
    ((k.allocate_process pid).1).Inv := by
  obtain ⟨hcnt, hnd, hb⟩ := hI
  unfold ProcessManager.allocate_process
  split
  · exact ⟨hcnt, hnd, hb⟩
  next p hp =>
    dsimp only
    have c1 := sameCounts_countsOkEq (sameCounts_setProc k pid
      (fun q => { q with num_pages := (p.size_kb + k.page_kb - 1) / k.page_kb })
      (fun q => rfl) (fun q => rfl))
    have hnd1 := nodup_of_countsOkEq c1 hnd
    have hlive1 : (k.setProc pid
        (fun q => { q with num_pages := (p.size_kb + k.page_kb - 1) / k.page_kb })).liveB
          pid = true := by
      rw [liveB_setProc_statepres k pid
        (fun q => { q with num_pages := (p.size_kb + k.page_kb - 1) / k.page_kb })
        (fun r => rfl) (fun r => rfl) pid]
      exact hlive
    split
    · have hd := setProc_dead_delta
        (k.setProc pid
          (fun q => { q with num_pages := (p.size_kb + k.page_kb - 1) / k.page_kb }))
        pid
        (fun q => { q with state := ProcessState.TERMINATED
                           termination_cause := some TerminationCause.ERROR })
        (fun q => rfl) (fun q => rfl) hnd1 hlive1
      refine Inv_of_delta ⟨hcnt, hnd, hb⟩ ?_ rfl ?_ rfl
      · exact hd.2.trans c1.2.1
      · show k.stats.rejected_processes + 1 + k.stats.forced_terminations +
          ((k.setProc pid
            (fun q => { q with num_pages := (p.size_kb + k.page_kb - 1) / k.page_kb })).setProc
            pid
            (fun q => { q with state := ProcessState.TERMINATED
                               termination_cause := some TerminationCause.ERROR })).liveCount =
          k.stats.rejected_processes + k.stats.forced_terminations + k.liveCount
        have e1 := hd.1
        have e2 := c1.1
        omega
    · split
      · refine Inv_of_countsOkEq ?_ ⟨hcnt, hnd, hb⟩
        refine countsOkEq_trans c1 (countsOkEq_trans (countsOkEq_set_ptabs _ _)
          (countsOkEq_install _ pid ?_ ?_))
        · exact nodup_of_countsOkEq
            (countsOkEq_trans c1 (countsOkEq_set_ptabs _ _)) hnd
        · exact hlive1
      · refine Inv_of_countsOkEq ?_ ⟨hcnt, hnd, hb⟩
        refine countsOkEq_trans c1 (countsOkEq_trans (countsOkEq_set_ptabs _ _)
          (countsOkEq_allocate_with_swap _ pid ?_ ?_))
        · exact nodup_of_countsOkEq
            (countsOkEq_trans c1 (countsOkEq_set_ptabs _ _)) hnd
        · exact hlive1

theorem suspend_Inv (k : ProcessManager) (pid : Nat)
    (hI : k.Inv) (hlive : k.liveB pid = true) (hcpu : k.cpuOkB = true) :
    (k.suspend_process pid).Inv := by
  unfold ProcessManager.suspend_process
  split
  · exact hI
  next p hp =>
    dsimp only
    refine Inv_of_countsOkEq ?_ hI
    by_cases hrun : p.state = ProcessState.RUNNING
    · rw [if_pos hrun]
      refine countsOkEq_trans (countsOkEq_cpu_release k hI.2.1 hcpu)
        (countsOkEq_trans
          (countsOkEq_setProc_live _ pid
            (fun q => { q with state := ProcessState.BLOCKED
                               blocked_on := some "Suspendido manualmente" })
            (fun q => rfl) (fun q => rfl) ?_ ?_)
          (countsOkEq_trans (countsOkEq_requeue _ _ _ _ _)
            (countsOkEq_requeue _ _ _ _ _)))
      · exact nodup_of_countsOkEq (countsOkEq_cpu_release k hI.2.1 hcpu) hI.2.1
      · exact liveB_cpu_release_of k pid hlive
    · rw [if_neg hrun]
      refine countsOkEq_trans
        (countsOkEq_setProc_live k pid
          (fun q => { q with state := ProcessState.BLOCKED
                             blocked_on := some "Suspendido manualmente" })
          (fun q => rfl) (fun q => rfl) hI.2.1 hlive)
        (countsOkEq_trans (countsOkEq_requeue _ _ _ _ _)
          (countsOkEq_requeue _ _ _ _ _))

theorem resume_Inv (k : ProcessManager) (pid : Nat) (hI : k.Inv) :
    (k.resume_process pid).Inv := by
  unfold ProcessManager.resume_process
  split
  · exact hI
  next p hp =>
    split
    · next hcond =>
        have hlive : k.liveB pid = true := by
          unfold ProcessManager.liveB
          rw [hp]
          simp [hcond]
        refine Inv_of_countsOkEq ?_ hI
        refine countsOkEq_trans
          (countsOkEq_setProc_live k pid
            (fun q => { q with state := ProcessState.READY, blocked_on := none })
            (fun q => rfl) (fun q => rfl) hI.2.1 hlive)
          (countsOkEq_trans (countsOkEq_requeue _ _ _ _ _)
            (countsOkEq_add_process _ pid ?_))
        refine nodup_of_countsOkEq (countsOkEq_trans
          (countsOkEq_setProc_live k pid
            (fun q => { q with state := ProcessState.READY, blocked_on := none })
            (fun q => rfl) (fun q => rfl) hI.2.1 hlive)
          (countsOkEq_requeue _ _ _ _ _)) hI.2.1
    · exact hI

theorem semWait_Inv (k : ProcessManager) (pid : Nat) (name : String)
    (hI : k.Inv) (hlive : k.liveB pid = true) :
    ((k.semaphore_wait pid name).1).Inv := by
  unfold ProcessManager.semaphore_wait
  split
  · exact hI
  next sem hsem =>
    split
    · exact hI
    · dsimp only
      rcases hw : sem.wait pid with ⟨sem1, ok⟩
      dsimp only
      cases ok with
      | true =>
          rw [if_pos rfl]
          exact Inv_of_countsOkEq (countsOkEq_set_sems k _) hI
      | false =>
          rw [if_neg (by decide)]
          dsimp only
          cases hfp : k.findProc pid with
          | none =>
              exfalso
              unfold ProcessManager.liveB at hlive
              rw [hfp] at hlive
              exact absurd hlive (by simp)
          | some pr =>
              have hscrut : ({ ({ k with
                    semaphores := assocSet k.semaphores name sem1 }).setProc pid
                    (fun q => { q with state := ProcessState.BLOCKED
                                       blocked_on := some name }) with
                  active_processes := (({ k with
                    semaphores := assocSet k.semaphores name sem1 }).setProc pid
                    (fun q => { q with state := ProcessState.BLOCKED
                                       blocked_on := some name })).active_processes.erase pid
                  blocked_processes := (({ k with
                    semaphores := assocSet k.semaphores name sem1 }).setProc pid
                    (fun q => { q with state := ProcessState.BLOCKED
                                       blocked_on := some name })).blocked_processes ++
                    [pid] }).findProc pid =
                  some ({ pr with state := ProcessState.BLOCKED
                                  blocked_on := some name }) := by
                show (({ k with
                  semaphores := assocSet k.semaphores name sem1 }).setProc pid
                  (fun q => { q with state := ProcessState.BLOCKED
                                     blocked_on := some name })).findProc pid = _
                rw [setProc_findProc_self _ pid
                  (fun q => { q with state := ProcessState.BLOCKED
                                     blocked_on := some name }) (fun r => rfl)]
                show (k.findProc pid).map _ = _
                rw [hfp]
                rfl
              rw [hscrut]
              dsimp only
              rw [if_neg (by decide)]
              refine Inv_of_countsOkEq ?_ hI
              refine countsOkEq_trans (countsOkEq_set_sems k _)
                (countsOkEq_trans
                  (countsOkEq_setProc_live _ pid
                    (fun q => { q with state := ProcessState.BLOCKED
                                       blocked_on := some name })
                    (fun q => rfl) (fun q => rfl) ?_ ?_)
                  (countsOkEq_trans (countsOkEq_requeue _ _ _ _ _)
                    (countsOkEq_set_stats _ _ rfl rfl rfl)))
              · exact hI.2.1
              · exact hlive

theorem semSignal_Inv (k : ProcessManager) (pid : Nat) (name : String)
    (hI : k.Inv) (hok : k.opOk (Op.semSignal pid name) = true) :
    (k.semaphore_signal pid name).Inv := by
  unfold ProcessManager.semaphore_signal
  split
  · exact hI
  next sem hsem =>
    rcases hsig : sem.signal with ⟨sem1, unb⟩
    dsimp only
    cases unb with
    | none => exact Inv_of_countsOkEq (countsOkEq_set_sems k _) hI
    | some q =>
        have hq : ∃ t, sem.waiting_queue = q :: t := by
          unfold Semaphore.signal at hsig
          cases hwq : sem.waiting_queue with
          | nil => rw [hwq] at hsig; simp at hsig
          | cons h t =>
              rw [hwq] at hsig
              dsimp only at hsig
              have := congrArg Prod.snd hsig
              simp only at this
              obtain rfl := Option.some.inj this
              exact ⟨t, rfl⟩
        obtain ⟨t, hwq⟩ := hq
        have hlive : k.liveB q = true := by
          unfold ProcessManager.opOk at hok
          dsimp only at hok
          rw [hsem] at hok
          dsimp only at hok
          rw [hwq] at hok
          exact hok
        refine Inv_of_countsOkEq ?_ hI
        refine countsOkEq_trans (countsOkEq_set_sems k _)
          (countsOkEq_trans
            (countsOkEq_setProc_live _ q
              (fun r => { r with state := ProcessState.READY, blocked_on := none })
              (fun r => rfl) (fun r => rfl) ?_ ?_)
            (countsOkEq_trans (countsOkEq_requeue _ _ _ _ _)
              (countsOkEq_add_process _ q ?_)))
        · exact hI.2.1
        · exact hlive
        · exact nodup_of_countsOkEq
            (countsOkEq_trans (countsOkEq_set_sems k _)
              (countsOkEq_trans
                (countsOkEq_setProc_live _ q
                  (fun r => { r with state := ProcessState.READY, blocked_on := none })
                  (fun r => rfl) (fun r => rfl) hI.2.1 hlive)
                (countsOkEq_requeue _ _ _ _ _))) hI.2.1

theorem execute_cycle_current (k : ProcessManager) :
    ((k.execute_cycle).1).cpu.current_process = k.cpu.current_process := by
  unfold ProcessManager.execute_cycle
  split <;> rfl

theorem cpu_assign_chain (k : ProcessManager) (pid : Nat)
    (hnd : (k.all_processes.map Process.pid).Nodup)
    (hlive : k.liveB pid = true) :
    countsOkEq k (k.cpu_assign pid) ∧
    (k.cpu_assign pid).cpu.current_process = some pid ∧
    (k.cpu_assign pid).liveB pid = true := by
  unfold ProcessManager.cpu_assign
  dsimp only
  by_cases hc : k.cpu.current_process.isSome = true
  · rw [if_pos hc]
    refine ⟨?_, rfl, ?_⟩
    · refine countsOkEq_trans (countsOkEq_set_cpu k _)
        (countsOkEq_trans (countsOkEq_set_cpu _ _)
          (countsOkEq_setProc_live _ pid
            (fun p => { p with
              state := ProcessState.RUNNING
              start_time := if p.start_time = none then some 0 else p.start_time })
            (fun r => rfl) (fun r => rfl) ?_ ?_))
      · exact hnd
      · exact hlive
    · exact liveB_setProc_live _ pid
        (fun p => { p with
          state := ProcessState.RUNNING
          start_time := if p.start_time = none then some 0 else p.start_time })
        (fun r => rfl) (fun r => rfl) pid hlive
  · rw [if_neg hc]
    refine ⟨?_, rfl, ?_⟩
    · refine countsOkEq_trans (countsOkEq_set_cpu k _)
        (countsOkEq_setProc_live _ pid
          (fun p => { p with
            state := ProcessState.RUNNING
            start_time := if p.start_time = none then some 0 else p.start_time })
          (fun r => rfl) (fun r => rfl) ?_ ?_)
      · exact hnd
      · exact hlive
    · exact liveB_setProc_live _ pid
        (fun p => { p with
          state := ProcessState.RUNNING
          start_time := if p.start_time = none then some 0 else p.start_time })
        (fun r => rfl) (fun r => rfl) pid hlive

theorem schedule_phase2 (k k1 : ProcessManager)
    (c1 : countsOkEq k k1) (hI : k.Inv)
    (hcur : ∀ q, k1.cpu.current_process = some q → k1.liveB q = true) :
    (match k1.execute_cycle with
     | (k2, ran) =>
       if ran then
         match k2.cpu.current_process with
         | some current =>
             match k2.findProc current with
             | some p =>
                 if p.remaining_cpu ≤ 0 then
                   (k2.cpu_release).terminate_process current
                 else k2
             | none => k2
         | none => k2
       else k2).Inv := by
  rcases hec : k1.execute_cycle with ⟨k2, ran⟩
  dsimp only
  have hsc : sameCounts k1 k2 := by
    have := sameCounts_execute_cycle k1
    rw [hec] at this
    exact this
  have c2 : countsOkEq k k2 := countsOkEq_trans c1 (sameCounts_countsOkEq hsc)
  have hcur2 : ∀ q, k2.cpu.current_process = some q → k2.liveB q = true := by
    intro q hq
    have e := execute_cycle_current k1
    rw [hec] at e
    rw [liveB_eq_of_sameCounts hsc q]
    exact hcur q (by rw [← e]; exact hq)
  cases ran with
  | false =>
      rw [if_neg (by decide)]
      exact Inv_of_countsOkEq c2 hI
  | true =>
      rw [if_pos rfl]
      cases hq : k2.cpu.current_process with
      | none => exact Inv_of_countsOkEq c2 hI
      | some current =>
          dsimp only
          cases hfind : k2.findProc current with
          | none => exact Inv_of_countsOkEq c2 hI
          | some p =>
              dsimp only
              split
              · have hlive2 : k2.liveB current = true := hcur2 current hq
                have hnd2 := nodup_of_countsOkEq c2 hI.2.1
                have hcpu2 : k2.cpuOkB = true := by
                  unfold ProcessManager.cpuOkB
                  rw [hq]
                  exact hlive2
                have cX := countsOkEq_cpu_release k2 hnd2 hcpu2
                have hIX : (k2.cpu_release).Inv :=
                  Inv_of_countsOkEq (countsOkEq_trans c2 cX) hI
                exact terminate_Inv _ current hIX
                  (liveB_cpu_release_of k2 current hlive2) (cpuOkB_cpu_release k2)
              · exact Inv_of_countsOkEq c2 hI

set_option maxHeartbeats 2000000 in
theorem schedule_Inv (k : ProcessManager) (hI : k.Inv)
    (hok : k.opOk Op.schedule = true) : k.schedule_cpu.Inv := by
  unfold ProcessManager.opOk at hok
  dsimp only at hok
  rw [Bool.and_eq_true] at hok
  obtain ⟨hcpu, hdispatch⟩ := hok
  unfold ProcessManager.schedule_cpu
  dsimp only
  cases hc : k.cpu.current_process with
  | some c0 =>
      have hcur : ∀ q, k.cpu.current_process = some q → k.liveB q = true := by
        intro q hq
        unfold ProcessManager.cpuOkB at hcpu
        rw [hq] at hcpu
        exact hcpu
      cases hr : k.ready_queue with
      | nil => exact schedule_phase2 k k (countsOkEq_refl k) hI hcur
      | cons a l => exact schedule_phase2 k k (countsOkEq_refl k) hI hcur
  | none =>
      cases hr : k.ready_queue with
      | nil =>
          refine schedule_phase2 k k (countsOkEq_refl k) hI ?_
          intro q hq
          rw [hc] at hq
          cases hq
      | cons next rest =>
          rw [hc, hr] at hdispatch
          dsimp only at hdispatch
          dsimp only
          obtain ⟨cassign, hcurkb, hlivekb⟩ :=
            cpu_assign_chain { k with ready_queue := rest } next hI.2.1 hdispatch
          have cka : countsOkEq k ({ k with ready_queue := rest }.cpu_assign next) :=
            countsOkEq_trans (countsOkEq_requeue k rest k.active_processes
              k.blocked_processes k.waiting_queue) cassign
          generalize hgen : ({ k with ready_queue := rest }.cpu_assign next) = kb
          rw [hgen] at cka hcurkb hlivekb
          cases hfn : kb.findProc next with
          | none =>
              exact schedule_phase2 k kb cka hI (fun q hq => by
                rw [hcurkb] at hq
                obtain rfl := Option.some.inj hq
                exact hlivekb)
          | some p =>
              dsimp only
              split
              · refine schedule_phase2 k _
                  (countsOkEq_trans cka (sameCounts_countsOkEq
                    (sameCounts_setProc kb next
                      (fun q => { q with start_time := some kb.current_time })
                      (fun r => rfl) (fun r => rfl)))) hI ?_
                intro q hq
                have hq2 : kb.cpu.current_process = some q := hq
                rw [hcurkb] at hq2
                obtain rfl := Option.some.inj hq2
                rw [liveB_setProc_statepres kb next
                  (fun q => { q with start_time := some kb.current_time })
                  (fun r => rfl) (fun r => rfl) next]
                exact hlivekb
              · exact schedule_phase2 k kb cka hI (fun q hq => by
                  rw [hcurkb] at hq
                  obtain rfl := Option.some.inj hq
                  exact hlivekb)

theorem step_Inv (k : ProcessManager) (op : Op) (hI : k.Inv)
    (hok : k.opOk op = true) : (k.step op).Inv := by
  cases op with
  | create s l pr b => exact create_Inv k s l pr b hI
  | allocate pid =>
      unfold ProcessManager.opOk at hok
      dsimp only at hok
      exact allocate_Inv k pid hI hok
  | suspend pid =>
      unfold ProcessManager.opOk at hok
      dsimp only at hok
      rw [Bool.and_eq_true] at hok
      exact suspend_Inv k pid hI hok.1 hok.2
  | resume pid => exact resume_Inv k pid hI
  | kill pid cause =>
      unfold ProcessManager.opOk at hok
      dsimp only at hok
      rw [Bool.and_eq_true] at hok
      exact kill_Inv k pid cause hI hok.1 hok.2
  | terminate pid =>
      unfold ProcessManager.opOk at hok
      dsimp only at hok
      rw [Bool.and_eq_true] at hok
      exact terminate_Inv k pid hI hok.1 hok.2
  | schedule => exact schedule_Inv k hI hok
  | accessPage pid page =>
      exact Inv_of_countsOkEq
        (sameCounts_countsOkEq (sameCounts_access_page k pid page)) hI
  | semCreate name v => exact Inv_of_countsOkEq (countsOkEq_set_sems k _) hI
  | semWait pid name =>
      unfold ProcessManager.opOk at hok
      dsimp only at hok
      exact semWait_Inv k pid name hI hok
  | semSignal pid name => exact semSignal_Inv k pid name hI hok
  | detect =>
      have hc : countsOkEq k (k.detect_deadlock).1 := by
        unfold ProcessManager.detect_deadlock
        split
        · exact countsOkEq_refl k
        · split
          · split
            · exact countsOkEq_set_stats k _ rfl rfl rfl
            · exact countsOkEq_refl k
          · exact countsOkEq_refl k
      exact Inv_of_countsOkEq hc hI
  | tick =>
      exact Inv_of_countsOkEq
        (sameCounts_countsOkEq (sameCounts_increment_time k)) hI

theorem run_Inv : ∀ (ops : List Op) (k : ProcessManager),
    k.Inv → k.traceOk ops = true → (k.run ops).Inv := by
  intro ops
  induction ops with
  | nil => intro k hI _; exact hI
  | cons op rest ih =>
      intro k hI htr
      unfold ProcessManager.traceOk at htr
      rw [Bool.and_eq_true] at htr
      exact ih (k.step op) (step_Inv k op hI htr.1) htr.2

/-- C3 (amended): along any well-formed trace of public operations from a
state satisfying the accounting invariant, the identity that holds is
`rejected + forced + in-flight = total_processes`; the completed counter is
excluded, because `terminate_process` double-counts (it increments the
completed counter on top of the forced counter bumped by
`force_terminate_process`). -/
theorem c3_amended_counter_identity (k : ProcessManager) (ops : List Op)
    (hI : k.Inv) (htr : k.traceOk ops = true) :
    (k.run ops).stats.rejected_processes +
      (k.run ops).stats.forced_terminations + (k.run ops).liveCount =
      (k.run ops).stats.total_processes :=
  (run_Inv ops k hI htr).1

/-- Witness for the amended C3 theorem on a concrete three-step trace. -/
theorem c3_amended_witness :
    (ProcessManager.init 16 16 4).Inv ∧
    (ProcessManager.init 16 16 4).traceOk
      [Op.create 4 5 5 (some 2), Op.allocate 1, Op.terminate 1] = true ∧
    ((ProcessManager.init 16 16 4).run
        [Op.create 4 5 5 (some 2), Op.allocate 1,
          Op.terminate 1]).stats.rejected_processes +
      ((ProcessManager.init 16 16 4).run
        [Op.create 4 5 5 (some 2), Op.allocate 1,
          Op.terminate 1]).stats.forced_terminations +
      ((ProcessManager.init 16 16 4).run
        [Op.create 4 5 5 (some 2), Op.allocate 1, Op.terminate 1]).liveCount =
      ((ProcessManager.init 16 16 4).run
        [Op.create 4 5 5 (some 2), Op.allocate 1,
          Op.terminate 1]).stats.total_processes :=
  ⟨by decide, by decide,
    c3_amended_counter_identity (ProcessManager.init 16 16 4)
      [Op.create 4 5 5 (some 2), Op.allocate 1, Op.terminate 1]
      (by decide) (by decide)⟩
